import Mathlib

/-!
Verification of the list comparator of `hubblestack/comparators/list.py`.

The Python module is shallowly embedded: Python values are modelled by the
inductive type `Val` (integers, booleans, strings, `None`, lists, and dicts
as association lists with unique keys), fallible Python code is modelled in
`Except String` (the error string standing for the exception), and each
handler of the module becomes an executable Lean function that mirrors the
source line by line.

External collaborators of the module (the number comparator, the mapping
comparator, the case-normalization helper of `runner_utils`, and the
comparator orchestrator for nested type-tagged sub-specifications) are not
part of the repository snapshot; they are either modelled from the
specification (definitions whose doc comment starts with `Modelled from the
spec:`) or taken as an explicit function parameter `orch`.
-/

/-- A Python value as handled by the comparator module: integers, booleans,
strings, `None`, lists, and dictionaries (association lists; Python dicts
have unique keys). Python floats do not occur in the comparator DSL and are
not modelled. -/
inductive Val : Type where
  | int : Int → Val
  | bool : Bool → Val
  | str : String → Val
  | none : Val
  | list : List Val → Val
  | dict : List (String × Val) → Val
deriving Repr

/-- Numeric value of a Python bool (`True == 1`, `False == 0`). -/
def pyBoolInt (b : Bool) : Int := if b then 1 else 0

/-- First binding of a key in a dict, as Python `d[k]` / `d.get(k)` would
find it (Python dicts have unique keys, so the first binding is the
binding). -/
def pyLookup (k : String) : List (String × Val) → Option Val
  | [] => Option.none
  | (k1, v) :: rest => if k1 = k then some v else pyLookup k rest

mutual

/-- Python `==` on the modelled values: numeric equality identifies bools
with the integers 0/1, list equality is elementwise, and dict equality is
key-set equality together with per-key equality of the bound values
(order-insensitive, as in Python). -/
def pyEq : Val → Val → Bool
  | .int a, .int b => a == b
  | .int a, .bool b => a == pyBoolInt b
  | .bool a, .int b => pyBoolInt a == b
  | .bool a, .bool b => a == b
  | .str a, .str b => a == b
  | .none, .none => true
  | .list a, .list b => pyEqList a b
  | .dict a, .dict b => pyEqEntries a b && a.length == b.length
  | _, _ => false
termination_by a b => sizeOf a + sizeOf b

/-- Elementwise Python `==` on lists. -/
def pyEqList : List Val → List Val → Bool
  | [], [] => true
  | a :: as1, b :: bs => pyEq a b && pyEqList as1 bs
  | _, _ => false
termination_by a b => sizeOf a + sizeOf b

/-- Every binding of the first dict is present in the second with a
Python-equal value. Together with equal sizes (and Python's unique dict
keys) this is Python dict equality. -/
def pyEqEntries : List (String × Val) → List (String × Val) → Bool
  | [], _ => true
  | (k, v) :: rest, b =>
    (match h : pyLookup k b with
     | some w => pyEq v w
     | Option.none => false)
    && pyEqEntries rest b
termination_by a b => sizeOf a + sizeOf b
decreasing_by
  all_goals simp_wf
  all_goals
    (have hlk : ∀ (l : List (String × Val)) (u : Val),
        pyLookup k l = some u → sizeOf u < sizeOf l := by
      intro l
      induction l with
      | nil =>
        intro u hu
        simp [pyLookup] at hu
      | cons p rest2 ih =>
        intro u hu
        obtain ⟨k1, w1⟩ := p
        by_cases hk : k1 = k
        · simp [pyLookup, hk] at hu
          subst hu
          simp
          omega
        · simp [pyLookup, hk] at hu
          have := ih u hu
          simp
          omega
     have := hlk b w h
     omega)

end

mutual

/-- Python `repr` of a modelled value (used for elements inside containers
in formatted diagnostic messages). -/
def pyRepr : Val → String
  | .int n => toString n
  | .bool b => if b then "True" else "False"
  | .none => "None"
  | .str s => "\x27" ++ s ++ "\x27"
  | .list l => "[" ++ pyReprList l ++ "]"
  | .dict d => "\x7b" ++ pyReprDict d ++ "\x7d"

/-- Comma-separated `repr`s of list elements. -/
def pyReprList : List Val → String
  | [] => ""
  | [a] => pyRepr a
  | a :: rest => pyRepr a ++ ", " ++ pyReprList rest

/-- Comma-separated `repr`s of dict entries. -/
def pyReprDict : List (String × Val) → String
  | [] => ""
  | [(k, v)] => "\x27" ++ k ++ "\x27: " ++ pyRepr v
  | (k, v) :: rest => "\x27" ++ k ++ "\x27: " ++ pyRepr v ++ ", " ++ pyReprDict rest

end

/-- Python `str` of a modelled value, as produced by `"...".format(value)`
in the module's diagnostic messages. -/
def pyStr : Val → String
  | .str s => s
  | v => pyRepr v

/-- Decimal value of a digit string. -/
def natOfDigits (l : List Char) : Nat :=
  l.foldl (fun acc c => acc * 10 + (c.toNat - 48)) 0

/-- Nonempty and all decimal digits. -/
def isDigits (l : List Char) : Bool :=
  !l.isEmpty && l.all (fun c => c.isDigit)

/-- Characters of a string with surrounding whitespace removed. -/
def trimChars (s : String) : List Char :=
  ((s.data.dropWhile Char.isWhitespace).reverse.dropWhile Char.isWhitespace).reverse

/-- Python `int(s)` on a string: optional surrounding whitespace, optional
sign, then decimal digits; anything else raises `ValueError` (`Option.none`
here). Underscore digit separators are not modelled. -/
def pyParseInt (s : String) : Option Int :=
  match trimChars s with
  | [] => Option.none
  | c :: rest =>
    if c = '+' then
      if isDigits rest then some (Int.ofNat (natOfDigits rest)) else Option.none
    else if c = '-' then
      if isDigits rest then some (-(Int.ofNat (natOfDigits rest))) else Option.none
    else if isDigits (c :: rest) then some (Int.ofNat (natOfDigits (c :: rest)))
    else Option.none

/-- Python `int(value)` restricted to the modelled values: ints pass
through, bools become 0/1, strings are parsed, everything else raises
(`Option.none`). `is_integer` of the source is `(pyToInt v).isSome`. -/
def pyToInt : Val → Option Int
  | .int n => some n
  | .bool b => some (pyBoolInt b)
  | .str s => pyParseInt s
  | _ => Option.none

/-- The comparison operators supported by the number comparator's
expressions. -/
inductive NumOp : Type where
  | ltOp | leOp | gtOp | geOp | eqOp | neOp
deriving DecidableEq

/-- Evaluate a number-comparator operator. -/
def evalNumOp (op : NumOp) (v n : Int) : Bool :=
  match op with
  | .ltOp => v < n
  | .leOp => v ≤ n
  | .gtOp => v > n
  | .geOp => v ≥ n
  | .eqOp => v = n
  | .neOp => v ≠ n

/-- Modelled from the spec: the number comparator's expression syntax — an
optional operator among `>`, `>=`, `<`, `<=`, `==`, `!=` followed by a
number, a bare number meaning equality. -/
def parseNumExpr (s : String) : Option (NumOp × Int) :=
  match trimChars s with
  | '>' :: '=' :: rest => (pyParseInt (String.mk rest)).map (fun n => (NumOp.geOp, n))
  | '<' :: '=' :: rest => (pyParseInt (String.mk rest)).map (fun n => (NumOp.leOp, n))
  | '=' :: '=' :: rest => (pyParseInt (String.mk rest)).map (fun n => (NumOp.eqOp, n))
  | '!' :: '=' :: rest => (pyParseInt (String.mk rest)).map (fun n => (NumOp.neOp, n))
  | '>' :: rest => (pyParseInt (String.mk rest)).map (fun n => (NumOp.gtOp, n))
  | '<' :: rest => (pyParseInt (String.mk rest)).map (fun n => (NumOp.ltOp, n))
  | l => (pyParseInt (String.mk l)).map (fun n => (NumOp.eqOp, n))

/-- Modelled from the spec: the number comparator's `match` verdict — the
expected value is an integer (equality) or an expression string; anything
unparseable fails. The number comparator itself is not part of the
repository snapshot. -/
def numberMatchB (e : Val) (v : Int) : Bool :=
  match e with
  | .int n => v == n
  | .bool b => v == pyBoolInt b
  | .str s =>
    match parseNumExpr s with
    | some (op, n) => evalNumOp op v n
    | Option.none => false
  | _ => false

/-- Modelled from the spec: the number comparator's `match` mode as a
(verdict, message) pair. -/
def numberMatch (e : Val) (v : Int) : Bool × String :=
  if numberMatchB e v then (true, "Check Passed")
  else (false, "number::match failure. Got=" ++ toString v)

/-- Modelled from the spec: the number comparator's `match_any` mode —
pass iff any expected expression matches. -/
def numberMatchAny (es : List Val) (v : Int) : Bool × String :=
  if es.any (fun e => numberMatchB e v) then (true, "Check Passed")
  else (false, "number::match_any failure. Got=" ++ toString v)

/-- Modelled from the spec: `runner_utils.apply_case_on_string` — case-fold
string values when the flag is set, pass every other value through
unchanged. -/
def applyCase (ignoreCase : Bool) : Val → Val
  | .str s => if ignoreCase then .str s.toLower else .str s
  | v => v

/-- Modelled from the spec: the mapping comparator's `match` verdict —
pass iff the actual value is a mapping and every mentioned expected
attribute is present with a case-normalized Python-equal value; fails on
type mismatch (non-mapping actual or expected). The mapping comparator is
not part of the repository snapshot. -/
def dictMatchB (ignoreCase : Bool) (expected actual : Val) : Bool :=
  match expected, actual with
  | .dict e, .dict a =>
    e.all (fun kv =>
      match pyLookup kv.1 a with
      | some w => pyEq (applyCase ignoreCase kv.2) (applyCase ignoreCase w)
      | Option.none => false)
  | _, _ => false

/-- Modelled from the spec: the mapping comparator's `match` mode as a
(verdict, message) pair; it never returns the sentinel message
`pass_as_key_not_found`. -/
def dictMatch (ignoreCase : Bool) (expected actual : Val) : Bool × String :=
  if dictMatchB ignoreCase expected actual then (true, "Check Passed")
  else (false, "dict::match failure. Got=" ++ pyStr actual)

/-- Modelled from the spec: the mapping comparator's `match_any` mode —
pass iff any expected pattern `match`es the actual mapping. -/
def dictMatchAny (ignoreCase : Bool) (patterns : List Val) (actual : Val) : Bool × String :=
  if patterns.any (fun p => dictMatchB ignoreCase p actual) then (true, "Check Passed")
  else (false, "dict::match_any failure. Got=" ++ pyStr actual)

/-- Python `len(v)`: lists, strings and dicts are sized, other modelled
values raise `TypeError`. -/
def pyLen : Val → Except String Nat
  | .list l => .ok l.length
  | .str s => .ok s.length
  | .dict d => .ok d.length
  | _ => .error "TypeError: object has no len()"

/-- Python iteration (`for x in v`): lists yield their elements, strings
their one-character substrings, dicts their keys; other modelled values
raise `TypeError`. -/
def pyIter : Val → Except String (List Val)
  | .list l => .ok l
  | .str s => .ok (s.data.map (fun c => Val.str (String.mk [c])))
  | .dict d => .ok (d.map (fun kv => Val.str kv.1))
  | _ => .error "TypeError: object is not iterable"

/-- Python `v[k]` for a string key: dict lookup (`KeyError` when absent),
`TypeError` on non-dicts. -/
def pyKeyOf (k : String) : Val → Except String Val
  | .dict d =>
    match pyLookup k d with
    | some w => .ok w
    | Option.none => .error ("KeyError: " ++ k)
  | _ => .error "TypeError: object is not subscriptable"

/-- The first list is a leading segment of the second. -/
def leadsChars : List Char → List Char → Bool
  | [], _ => true
  | _ :: _, [] => false
  | a :: as1, b :: bs => a == b && leadsChars as1 bs

/-- The first list occurs contiguously inside the second. -/
def hasInfixChars (needle : List Char) : List Char → Bool
  | [] => needle.isEmpty
  | c :: rest => leadsChars needle (c :: rest) || hasInfixChars needle rest

/-- Python `x in v` as used by the source (`if type in to_compare[dict_key]`):
key membership for dicts, substring test for strings, element membership
for lists, `TypeError` otherwise. -/
def pyHasType : Val → Except String Bool
  | .dict d => .ok (pyLookup "type" d).isSome
  | .str s => .ok (hasInfixChars "type".data s.data)
  | .list l => .ok (l.any (fun x => pyEq x (Val.str "type")))
  | _ => .error "TypeError: argument is not iterable"

/-- Total version of Python `type in v`: agrees with `pyHasType` on the
values where the latter does not raise (dicts, strings, lists), false on
the rest. -/
def pyHasTypeB : Val → Bool
  | .dict d => (pyLookup "type" d).isSome
  | .str s => hasInfixChars "type".data s.data
  | .list l => l.any (fun x => pyEq x (Val.str "type"))
  | _ => false

/-- Lexicographic three-way comparison of char lists by code point,
matching Python string comparison (a proper leading segment is smaller). -/
def lexCmp : List Char → List Char → Ordering
  | [], [] => .eq
  | [], _ :: _ => .lt
  | _ :: _, [] => .gt
  | a :: as1, b :: bs =>
    match cmp a.toNat b.toNat with
    | .eq => lexCmp as1 bs
    | o => o

/-- Numeric content of a Python value under `<`: ints and bools (Python
orders `True`/`False` as 1/0). -/
def numVal : Val → Option Int
  | .int n => some n
  | .bool b => some (pyBoolInt b)
  | _ => Option.none

/-- Python's `<`-comparison on the modelled values, `Option.none` when the
comparison raises `TypeError`. Numbers compare numerically, strings
lexicographically; dicts and `None` are unorderable in Python 3. Python
also orders lists elementwise, but the comparator's data never sorts
list-valued elements, so nested lists are modelled as unorderable. -/
def valCmp (a b : Val) : Option Ordering :=
  match numVal a, numVal b with
  | some x, some y => some (cmp x y)
  | _, _ =>
    match a, b with
    | .str s, .str t => some (lexCmp s.data t.data)
    | _, _ => Option.none

/-- The boolean "not greater" test the sort model inserts with; on
unorderable pairs it is vacuously true, but the sort model only runs after
checking that every pair is orderable. -/
def pyLeB (a b : Val) : Bool :=
  match valCmp a b with
  | some Ordering.gt => false
  | _ => true

/-- Insert a value in front of the first element it is `le`-below-or-equal
to: this is where a stable sort puts a later-arriving element. -/
def pyInsert (le : Val → Val → Bool) (a : Val) : List Val → List Val
  | [] => [a]
  | b :: l => if le a b then a :: b :: l else b :: pyInsert le a l

/-- Stable insertion sort; for totally ordered inputs it produces the same
list as Python's stable `list.sort()`. -/
def pySortRun (le : Val → Val → Bool) : List Val → List Val
  | [] => []
  | a :: l => pyInsert le a (pySortRun le l)

/-- Every pair of (position-)distinct elements is orderable: when this
fails, Python's sort raises `TypeError` while comparing two of them. -/
def allComparable : List Val → Bool
  | [] => true
  | a :: l => l.all (fun b => (valCmp a b).isSome) && allComparable l

/-- Python `l.sort()` on the modelled values: raises `TypeError` when
elements are unorderable, otherwise sorts stably in natural order. -/
def pySortNat (l : List Val) : Except String (List Val) :=
  if allComparable l then .ok (pySortRun pyLeB l)
  else .error "TypeError: unorderable elements"

/-- The sort key `lambda i: i[sort_key]` of the dict branch, as a total
function; the sort model only uses it after `pyKeyOf` has succeeded on
every element, where it agrees with the Python key function. -/
def getKeyD (k : String) : Val → Val
  | .dict d => (pyLookup k d).getD Val.none
  | _ => Val.none

/-- Ordering test on sort keys for the dict branch. -/
def keyLeB (k : String) (a b : Val) : Bool := pyLeB (getKeyD k a) (getKeyD k b)

/-- Keys `i[sort_key]` of all elements, computed up front as Python's
`list.sort(key=...)` does (first failure raises). -/
def pyKeysOf (k : String) : List Val → Except String (List Val)
  | [] => .ok []
  | v :: rest => do
    let w ← pyKeyOf k v
    let ws ← pyKeysOf k rest
    .ok (w :: ws)

/-- Python `l.sort(key=lambda i: i[sort_key])`: computes every element's
key first (raising `KeyError`/`TypeError` as `i[sort_key]` does), raises
`TypeError` when two keys are unorderable, and otherwise sorts stably by
key. -/
def pySortByKey (k : String) (l : List Val) : Except String (List Val) := do
  let ks ← pyKeysOf k l
  if allComparable ks then .ok (pySortRun (keyLeB k) l)
  else .error "TypeError: unorderable sort keys"

/-- Handler `size` (list.py lines 116-135): delegate the length of the
actual value to the number comparator and report its verdict. -/
def pySize (e : Val) (actual : Val) : Except String (Bool × String) := do
  let n ← pyLen actual
  if (numberMatch e (Int.ofNat n)).1 then
    pure (true, "Check Passed")
  else
    pure (false, "list::size failure. Expected=" ++ toString n ++ " Got=" ++ pyStr e)

/-- The numeric fast path of handler `match` (list.py lines 163-169): when
the first actual element parses as an integer, delegate `int(actual[0])`
against `expected[0]` to the number comparator (`IndexError` when the
expected list is empty); `ok false` when the first element is not
numeric-looking or the delegated check fails. -/
def fastPasses (expected : List Val) (a : Val) : Except String Bool :=
  match pyToInt a with
  | some n =>
    match expected with
    | [] => .error "IndexError: list index out of range"
    | e :: _ => .ok (numberMatch e n).1
  | Option.none => .ok false

/-- Handler `match` (list.py lines 146-181): reject non-list or empty
actual values, try the numeric fast path, then sort both sequences in
place (by the first key of the first actual dict when the first element is
a dict, naturally otherwise) and compare them with Python `==`. Besides
the (verdict, message) result, the model returns the post-call values of
`result_to_compare` and `expected_list`, which the source mutates by
sorting; on an exception (`Except.error`) no post-state is modelled. -/
def pyMatch (expected : List Val) (actual : Val) :
    Except String ((Bool × String) × Val × List Val) :=
  match actual with
  | .list (a :: l) => do
    let fast ← fastPasses expected a
    if fast then
      pure ((true, "Check Passed"), Val.list (a :: l), expected)
    else
      match a with
      | .dict d =>
        match d with
        | [] => .error "IndexError: list index out of range"
        | (k, _) :: _ => do
          let sortedA ← pySortByKey k (a :: l)
          let sortedB ← pySortByKey k expected
          if pyEqList sortedA sortedB then
            pure ((true, "Check Passed"), Val.list sortedA, sortedB)
          else
            pure ((false, "list::match failure. Got=" ++ pyStr (Val.list sortedA)),
              Val.list sortedA, sortedB)
      | _ => do
        let sortedA ← pySortNat (a :: l)
        let sortedB ← pySortNat expected
        if pyEqList sortedA sortedB then
          pure ((true, "Check Passed"), Val.list sortedA, sortedB)
        else
          pure ((false, "list::match failure. Got=" ++ pyStr (Val.list sortedA)),
            Val.list sortedA, sortedB)
  | v =>
    .ok ((false, "list::match failure. " ++ pyStr v ++ " is not an instance of list"),
      v, expected)

/-- The in-place sort order used by handler `match` for a given first
actual element: keyed by the first key of the first dict when the first
element is a (non-empty) dict, natural order otherwise. -/
def matchLe : Val → Val → Val → Bool
  | .dict ((k, _) :: _) => keyLeB k
  | _ => pyLeB

/-- `x.get(key, None)` of the source (list.py line 327): `None`-defaulted
dict lookup; `AttributeError` on non-dicts. -/
def makGet (key : String) (x : Val) : Except String Val :=
  match x with
  | .dict d => .ok ((pyLookup key d).getD Val.none)
  | _ => .error "AttributeError: object has no attribute get"

/-- Total version of `x.get(key, None)` used to state properties; agrees
with `makGet` on dicts. -/
def getDefD (key : String) : Val → Val
  | .dict d => (pyLookup key d).getD Val.none
  | _ => Val.none

/-- Whether an actual element's `match_key` value Python-equals an
expected attribute set's `match_key` value (list.py line 327, with the
expected side read with a `None` default). -/
def keyHitB (key : String) (r x : Val) : Bool := pyEq (getKeyD key r) (getDefD key x)

/-- Inner loop of `match_any_if_keyvalue_matches` (list.py lines 326-341):
for one actual element, walk the expected attribute sets; on a match-key
hit delegate to the mapping comparator's `match`; a success whose message
is not the sentinel `pass_as_key_not_found` passes immediately
(`Option.none` result), a failure sets the `failed_once` flag. -/
def makInner (ic : Bool) (key : String) (r : Val) :
    List Val → Bool → Except String (Option Bool)
  | [], failed => .ok (some failed)
  | x :: xs, failed => do
    let rv ← pyKeyOf key r
    let xv ← makGet key x
    if pyEq rv xv then
      let res := dictMatch ic x r
      if res.1 ∧ res.2 ≠ "pass_as_key_not_found" then .ok Option.none
      else if res.1 = false then makInner ic key r xs true
      else makInner ic key r xs failed
    else makInner ic key r xs failed

/-- Outer loop of `match_any_if_keyvalue_matches` (list.py lines 325-345):
scan actual elements threading the `failed_once` flag; an immediate pass
from the inner loop returns at once; after a full scan the flag decides
the verdict. -/
def makOuter (ic : Bool) (key : String) (argsL : List Val) (failMsg : String) :
    List Val → Bool → Except String (Bool × String)
  | [], failed => .ok (if failed then (false, failMsg) else (true, "Check Passed"))
  | r :: rest, failed => do
    let step ← makInner ic key r argsL failed
    match step with
    | Option.none => .ok (true, "Check Passed")
    | some failed2 => makOuter ic key argsL failMsg rest failed2

/-- Handler `match_any_if_keyvalue_matches` (list.py lines 284-345). -/
def pyMatchAnyIfKeyvalueMatches (ic : Bool) (key : String) (argsL : List Val)
    (actual : Val) : Except String (Bool × String) := do
  let elems ← pyIter actual
  makOuter ic key argsL
    ("list::match_any_if_keyvalue_matches failure. Got=" ++ pyStr actual) elems false

/-- One (expected pattern, actual element) comparison of `match_all`
(list.py lines 253-274): a mapping element delegates to the mapping
comparator's `match` with the pattern; otherwise a pattern that is itself
a mapping whose first value carries a `type` tag is forwarded verbatim to
the orchestrator `orch`; otherwise the pattern must equal the element
after case normalization (`ret_status` stays `False` for a mapping
pattern without a `type` tag). -/
def matchAllPair (orch : Val → Val → Bool × String) (ic : Bool) (p r : Val) :
    Except String Bool :=
  match r with
  | .dict _ => .ok (dictMatchB ic p r)
  | _ =>
    match p with
    | .dict pl =>
      match pl with
      | [] => .error "IndexError: list index out of range"
      | (_, v) :: _ => do
        let ht ← pyHasType v
        if ht then .ok (orch v r).1 else .ok false
    | _ => .ok (pyEq (applyCase ic r) (applyCase ic p))

/-- Inner loop of `match_all` (list.py lines 252-278): scan actual
elements until one satisfies the pattern. -/
def matchAllScan (orch : Val → Val → Bool × String) (ic : Bool) (p : Val) :
    List Val → Except String Bool
  | [] => .ok false
  | r :: rest => do
    let st ← matchAllPair orch ic p r
    if st then .ok true else matchAllScan orch ic p rest

/-- Outer loop of `match_all` (list.py lines 251-281): every expected
pattern must be satisfied by some actual element; the first unsatisfied
pattern fails the handler. -/
def matchAllGo (orch : Val → Val → Bool × String) (ic : Bool) (elems : List Val)
    (failMsg : String) : List Val → Except String (Bool × String)
  | [] => .ok (true, "Check Passed")
  | p :: ps => do
    let found ← matchAllScan orch ic p elems
    if found then matchAllGo orch ic elems failMsg ps else .ok (false, failMsg)

/-- Handler `match_all` (list.py lines 237-281). -/
def pyMatchAll (orch : Val → Val → Bool × String) (ic : Bool) (patterns : List Val)
    (actual : Val) : Except String (Bool × String) := do
  let elems ← pyIter actual
  matchAllGo orch ic elems ("Check failed, got=" ++ pyStr actual) patterns

/-- A pattern on which the source's unguarded operations cannot raise:
scalar patterns and attribute-set patterns such as `«name: abc»` always
qualify; only a mapping pattern that is empty (where
`list(to_compare.keys())[0]` raises `IndexError`) or whose first value is
a non-iterable like an int (where `type in ...` raises `TypeError`) is
excluded. -/
def wfPattern (p : Val) : Prop :=
  ∀ pl, p = Val.dict pl →
    ∃ k v rest, pl = (k, v) :: rest ∧ pyHasType v = Except.ok (pyHasTypeB v)

/-- The satisfaction relation computed by `matchAllPair` on well-shaped
patterns, as a total boolean function. -/
def pairSatB (orch : Val → Val → Bool × String) (ic : Bool) (p r : Val) : Bool :=
  match r with
  | .dict _ => dictMatchB ic p r
  | _ =>
    match p with
    | .dict [] => false
    | .dict ((_, v) :: _) => pyHasTypeB v && (orch v r).1
    | _ => pyEq (applyCase ic r) (applyCase ic p)

/-- Pattern loop for a non-mapping element in `match_any` (list.py lines
215-231): a mapping pattern whose first value carries a `type` tag is
forwarded verbatim to the orchestrator; a non-mapping pattern is compared
by case-normalized equality; a mapping pattern without a `type` tag is
skipped. -/
def scalarLoop (orch : Val → Val → Bool × String) (ic : Bool) (r : Val) :
    List Val → Except String Bool
  | [] => .ok false
  | p :: ps =>
    match p with
    | .dict pl =>
      match pl with
      | [] => .error "IndexError: list index out of range"
      | (_, v) :: _ => do
        let ht ← pyHasType v
        if ht then
          if (orch v r).1 then .ok true else scalarLoop orch ic r ps
        else scalarLoop orch ic r ps
    | _ =>
      if pyEq (applyCase ic p) (applyCase ic r) then .ok true
      else scalarLoop orch ic r ps

/-- True exactly on mapping values (Python `isinstance(v, dict)`). -/
def isDictB : Val → Bool
  | .dict _ => true
  | _ => false

/-- Element loop of `match_any` (list.py lines 197-232): a numeric-looking
element first tries the number comparator's `match_any` (`ret_status`);
then a mapping element tries the mapping comparator's `match_any`, while
any other element walks the patterns with `scalarLoop`. The first success
anywhere passes; a fully unsuccessful scan fails. -/
def matchAnyGo (orch : Val → Val → Bool × String) (ic : Bool) (patterns : List Val)
    (failMsg : String) : List Val → Except String (Bool × String)
  | [] => .ok (false, failMsg)
  | r :: rest =>
    if (match pyToInt r with
        | some n => (numberMatchAny patterns n).1
        | Option.none => false) then .ok (true, "Check Passed")
    else if isDictB r then
      (if (dictMatchAny ic patterns r).1 then .ok (true, "Check Passed")
       else matchAnyGo orch ic patterns failMsg rest)
    else do
      let s ← scalarLoop orch ic r patterns
      if s then .ok (true, "Check Passed")
      else matchAnyGo orch ic patterns failMsg rest

/-- Handler `match_any` (list.py lines 184-234). -/
def pyMatchAny (orch : Val → Val → Bool × String) (ic : Bool) (patterns : List Val)
    (actual : Val) : Except String (Bool × String) := do
  let elems ← pyIter actual
  matchAnyGo orch ic patterns ("list::match_any failure. Got=" ++ pyStr actual) elems

/-- Satisfaction of one pattern by one non-mapping element in the scalar
loop, as a total boolean function (agrees with `scalarLoop` on well-shaped
patterns). -/
def scalarSatB (orch : Val → Val → Bool × String) (ic : Bool) (r p : Val) : Bool :=
  match p with
  | .dict [] => false
  | .dict ((_, v) :: _) => pyHasTypeB v && (orch v r).1
  | _ => pyEq (applyCase ic p) (applyCase ic r)

/-- Satisfaction of one expected pattern by one actual element in
`match_any`: the numeric route (when the element parses as an integer),
the mapping route (for mapping elements), or the scalar route. -/
def anyPairSatB (orch : Val → Val → Bool × String) (ic : Bool) (r p : Val) : Bool :=
  ((pyToInt r).elim false (fun n => numberMatchB p n))
  || (if isDictB r then dictMatchB ic p r else scalarSatB orch ic r p)

/-- Satisfaction of some pattern by one element, matching the element-level
branching of `matchAnyGo`. -/
def elemSatB (orch : Val → Val → Bool × String) (ic : Bool) (patterns : List Val)
    (r : Val) : Bool :=
  ((pyToInt r).elim false (fun n => patterns.any (fun p => numberMatchB p n)))
  || (if isDictB r then patterns.any (fun p => dictMatchB ic p r)
      else patterns.any (fun p => scalarSatB orch ic r p))

/-- A parsed list-comparator rule specification: the six mutually exclusive
rule keys of the DSL (§3 of the module docstring). `filter_compare` nests a
further list rule, mirroring the source's `{"type": "list"} | compare`
merge that is handed back to the orchestrator. -/
inductive ListRule : Type where
  | sizeRule (e : Val)
  | matchRule (expected : List Val)
  | matchAnyRule (patterns : List Val) (ignoreCase : Bool)
  | matchAllRule (patterns : List Val) (ignoreCase : Bool)
  | matchAnyIfKeyvalueMatchesRule (matchKey : String) (args : List Val) (ignoreCase : Bool)
  | filterCompareRule (filter : Val) (compare : ListRule)

/-- Filter stage of `filter_compare` (list.py lines 361-368): keep, in
order, the elements that the mapping comparator's `match` accepts against
the filter pattern (`ignore_case` is not forwarded, so case-sensitive). -/
def filterLoop (f : Val) : List Val → List Val
  | [] => []
  | r :: rest =>
    if dictMatchB false f r then r :: filterLoop f rest else filterLoop f rest

/-- The list comparator's dispatch: one handler per rule key.
`filter_compare` (list.py lines 347-376) filters and then hands the merged
`{"type": "list", **compare}` specification back to the orchestrator,
which dispatches it to this same list comparator — modelled by the
structural recursion on the nested rule. -/
def evalListRule (orch : Val → Val → Bool × String) : ListRule → Val →
    Except String (Bool × String)
  | .sizeRule e, v => pySize e v
  | .matchRule exp, v => (pyMatch exp v).map Prod.fst
  | .matchAnyRule p ic, v => pyMatchAny orch ic p v
  | .matchAllRule p ic, v => pyMatchAll orch ic p v
  | .matchAnyIfKeyvalueMatchesRule k a ic, v => pyMatchAnyIfKeyvalueMatches ic k a v
  | .filterCompareRule f c, v => do
    let elems ← pyIter v
    evalListRule orch c (Val.list (filterLoop f elems))

theorem dictMatch_fst (ic : Bool) (x r : Val) : (dictMatch ic x r).1 = dictMatchB ic x r := by
  rw [dictMatch]
  by_cases h : dictMatchB ic x r = true
  · simp [h]
  · simp only [h, if_false]
    simpa using h

theorem char_eq_of_toNat_eq {a b : Char} (h : a.toNat = b.toNat) : a = b := by
  apply Char.eq_of_val_eq
  apply UInt32.ext
  exact h

theorem lexCmp_eq_iff : ∀ (s t : List Char), lexCmp s t = Ordering.eq ↔ s = t := by
  intro s
  induction s with
  | nil => intro t; cases t <;> simp [lexCmp]
  | cons a as1 ih =>
    intro t
    cases t with
    | nil => simp [lexCmp]
    | cons b bs =>
      simp only [lexCmp]
      cases h : cmp a.toNat b.toNat with
      | eq =>
        have hab : a = b := char_eq_of_toNat_eq ((cmp_eq_eq_iff _ _).mp h)
        simp [hab, ih]
      | lt =>
        have hne : a ≠ b := by
          intro he
          subst he
          simp [cmp_self_eq_eq] at h
        simp [hne]
      | gt =>
        have hne : a ≠ b := by
          intro he
          subst he
          simp [cmp_self_eq_eq] at h
        simp [hne]

theorem lexCmp_swap : ∀ (s t : List Char), (lexCmp s t).swap = lexCmp t s := by
  intro s
  induction s with
  | nil => intro t; cases t <;> simp [lexCmp, Ordering.swap]
  | cons a as1 ih =>
    intro t
    cases t with
    | nil => simp [lexCmp, Ordering.swap]
    | cons b bs =>
      simp only [lexCmp]
      have hsw : (cmp a.toNat b.toNat).swap = cmp b.toNat a.toNat := cmp_swap _ _
      cases h : cmp a.toNat b.toNat with
      | eq =>
        have h2 : cmp b.toNat a.toNat = Ordering.eq := by
          rw [← hsw, h]
          rfl
        simp [h2, ih]
      | lt =>
        have h2 : cmp b.toNat a.toNat = Ordering.gt := by
          rw [← hsw, h]
          rfl
        simp [h2, Ordering.swap]
      | gt =>
        have h2 : cmp b.toNat a.toNat = Ordering.lt := by
          rw [← hsw, h]
          rfl
        simp [h2, Ordering.swap]

theorem lexCmp_le_trans : ∀ {s t u : List Char},
    lexCmp s t ≠ Ordering.gt → lexCmp t u ≠ Ordering.gt → lexCmp s u ≠ Ordering.gt := by
  intro s
  induction s with
  | nil =>
    intro t u _ _
    cases u <;> simp [lexCmp]
  | cons a as1 ih =>
    intro t u h1 h2
    cases t with
    | nil => simp [lexCmp] at h1
    | cons b bs =>
      cases u with
      | nil => simp [lexCmp] at h2
      | cons c cs =>
        simp only [lexCmp] at h1 h2 ⊢
        cases hab : cmp a.toNat b.toNat with
        | gt => simp [hab] at h1
        | lt =>
          have hlt1 : a.toNat < b.toNat := (cmp_eq_lt_iff _ _).mp hab
          cases hbc : cmp b.toNat c.toNat with
          | gt => simp [hbc] at h2
          | lt =>
            have hlt2 : b.toNat < c.toNat := (cmp_eq_lt_iff _ _).mp hbc
            have : cmp a.toNat c.toNat = Ordering.lt :=
              (cmp_eq_lt_iff _ _).mpr (lt_trans hlt1 hlt2)
            simp [this]
          | eq =>
            have heq : b.toNat = c.toNat := (cmp_eq_eq_iff _ _).mp hbc
            have : cmp a.toNat c.toNat = Ordering.lt :=
              (cmp_eq_lt_iff _ _).mpr (heq ▸ hlt1)
            simp [this]
        | eq =>
          have heq : a.toNat = b.toNat := (cmp_eq_eq_iff _ _).mp hab
          cases hbc : cmp b.toNat c.toNat with
          | gt => simp [hbc] at h2
          | lt =>
            have hlt2 : b.toNat < c.toNat := (cmp_eq_lt_iff _ _).mp hbc
            have : cmp a.toNat c.toNat = Ordering.lt :=
              (cmp_eq_lt_iff _ _).mpr (heq ▸ hlt2)
            simp [this]
          | eq =>
            have heq2 : b.toNat = c.toNat := (cmp_eq_eq_iff _ _).mp hbc
            have : cmp a.toNat c.toNat = Ordering.eq :=
              (cmp_eq_eq_iff _ _).mpr (heq.trans heq2)
            simp [hab] at h1
            simp [hbc] at h2
            simp [this]
            exact ih h1 h2

theorem valCmp_swap (a b : Val) : valCmp b a = (valCmp a b).map Ordering.swap := by
  cases a <;> cases b <;> simp [valCmp, numVal] <;>
    first
      | rw [cmp_swap]
      | rw [lexCmp_swap]

theorem pyLeB_eq_true_iff {a b : Val} :
    pyLeB a b = true ↔ valCmp a b ≠ some Ordering.gt := by
  rw [pyLeB]
  cases h : valCmp a b with
  | none => simp
  | some o => cases o <;> simp

theorem valCmp_isSome_symm {a b : Val} (h : (valCmp a b).isSome) : (valCmp b a).isSome := by
  rw [valCmp_swap]
  simpa using h

theorem valCmp_isSome_cases {a b : Val} (h : (valCmp a b).isSome) :
    ((numVal a).isSome ∧ (numVal b).isSome) ∨ (∃ s t, a = .str s ∧ b = .str t) := by
  cases a <;> cases b <;> simp_all [valCmp, numVal]

theorem pyLeB_total (a b : Val) : pyLeB a b = true ∨ pyLeB b a = true := by
  by_cases h : valCmp a b = some Ordering.gt
  · right
    rw [pyLeB_eq_true_iff, valCmp_swap, h]
    simp [Ordering.swap]
  · left
    exact pyLeB_eq_true_iff.mpr h

theorem valCmp_num {a b : Val} {x y : Int} (hx : numVal a = some x) (hy : numVal b = some y) :
    valCmp a b = some (cmp x y) := by
  simp only [valCmp, hx, hy]

theorem valCmp_str (s t : String) :
    valCmp (Val.str s) (Val.str t) = some (lexCmp s.data t.data) := by
  rw [valCmp]
  simp [numVal]

theorem pyLeB_trans_core {a b c : Val}
    (hab : (valCmp a b).isSome) (hbc : (valCmp b c).isSome)
    (h1 : pyLeB a b = true) (h2 : pyLeB b c = true) : pyLeB a c = true := by
  rw [pyLeB_eq_true_iff] at h1 h2 ⊢
  rcases valCmp_isSome_cases hab with ⟨hna, hnb⟩ | ⟨s, t, rfl, rfl⟩
  · rcases valCmp_isSome_cases hbc with ⟨hnb2, hnc⟩ | ⟨t, u, hbt, rfl⟩
    · obtain ⟨x, hx⟩ := Option.isSome_iff_exists.mp hna
      obtain ⟨y, hy⟩ := Option.isSome_iff_exists.mp hnb
      obtain ⟨z, hz⟩ := Option.isSome_iff_exists.mp hnc
      rw [valCmp_num hx hy] at h1
      rw [valCmp_num hy hz] at h2
      rw [valCmp_num hx hz]
      simp only [ne_eq, Option.some.injEq] at h1 h2 ⊢
      intro hgt
      have hzx : z < x := (cmp_eq_gt_iff _ _).mp hgt
      have hxy : ¬ y < x := fun hl => h1 ((cmp_eq_gt_iff _ _).mpr hl)
      have hyz : ¬ z < y := fun hl => h2 ((cmp_eq_gt_iff _ _).mpr hl)
      omega
    · subst hbt
      simp [numVal] at hnb
  · rcases valCmp_isSome_cases hbc with ⟨hnb, _⟩ | ⟨t2, u, ht, rfl⟩
    · simp [numVal] at hnb
    · obtain rfl : t2 = t := by injection ht.symm
      rw [valCmp_str] at h1 h2 ⊢
      simp only [ne_eq, Option.some.injEq] at h1 h2 ⊢
      exact lexCmp_le_trans h1 h2

theorem pyLeB_trans_mem {f : Val → Val} {l : List Val}
    (hcomp : ∀ x ∈ l, ∀ y ∈ l, f x = f y ∨ (valCmp (f x) (f y)).isSome) :
    ∀ x ∈ l, ∀ y ∈ l, ∀ z ∈ l,
      pyLeB (f x) (f y) = true → pyLeB (f y) (f z) = true → pyLeB (f x) (f z) = true := by
  intro x hx y hy z hz h1 h2
  rcases hcomp x hx y hy with hxy | hxy
  · rw [hxy]
    exact h2
  · rcases hcomp y hy z hz with hyz | hyz
    · rw [← hyz]
      exact h1
    · exact pyLeB_trans_core hxy hyz h1 h2

theorem allComparable_cons {a : Val} {l : List Val} :
    allComparable (a :: l) = true ↔
      (∀ b ∈ l, (valCmp a b).isSome) ∧ allComparable l = true := by
  simp [allComparable, List.all_eq_true]

theorem allComparable_mem_ne :
    ∀ {l : List Val}, allComparable l = true →
      ∀ x ∈ l, ∀ y ∈ l, x ≠ y → (valCmp x y).isSome := by
  intro l
  induction l with
  | nil => simp
  | cons a rest ih =>
    intro h x hx y hy hne
    rw [allComparable_cons] at h
    rcases List.mem_cons.mp hx with rfl | hx2
    · rcases List.mem_cons.mp hy with rfl | hy2
      · exact absurd rfl hne
      · exact h.1 y hy2
    · rcases List.mem_cons.mp hy with rfl | hy2
      · exact valCmp_isSome_symm (h.1 x hx2)
      · exact ih h.2 x hx2 y hy2 hne

theorem hcomp_of_allComparable {f : Val → Val} {l : List Val}
    (h : allComparable (l.map f) = true) :
    ∀ x ∈ l, ∀ y ∈ l, f x = f y ∨ (valCmp (f x) (f y)).isSome := by
  intro x hx y hy
  by_cases he : f x = f y
  · exact Or.inl he
  · exact Or.inr (allComparable_mem_ne h (f x) (List.mem_map_of_mem f hx)
      (f y) (List.mem_map_of_mem f hy) he)

theorem pyInsert_perm (le : Val → Val → Bool) (a : Val) :
    ∀ l : List Val, (pyInsert le a l).Perm (a :: l) := by
  intro l
  induction l with
  | nil => simp [pyInsert]
  | cons b bs ih =>
    simp only [pyInsert]
    by_cases h : le a b = true
    · simp [h]
    · simp only [h, if_false]
      exact (ih.cons b).trans (List.Perm.swap a b bs)

theorem pySortRun_perm (le : Val → Val → Bool) :
    ∀ l : List Val, (pySortRun le l).Perm l := by
  intro l
  induction l with
  | nil => simp [pySortRun]
  | cons a rest ih =>
    simp only [pySortRun]
    exact (pyInsert_perm le a (pySortRun le rest)).trans (ih.cons a)

theorem pyInsert_pairwise (le : Val → Val → Bool)
    (htot : ∀ x y : Val, le x y = true ∨ le y x = true) :
    ∀ (l : List Val) (a : Val),
      (∀ x ∈ a :: l, ∀ y ∈ a :: l, ∀ z ∈ a :: l,
        le x y = true → le y z = true → le x z = true) →
      List.Pairwise (fun x y => le x y = true) l →
      List.Pairwise (fun x y => le x y = true) (pyInsert le a l) := by
  intro l
  induction l with
  | nil =>
    intro a _ _
    simp [pyInsert]
  | cons b bs ih =>
    intro a htrans hl
    have hl2 := List.pairwise_cons.mp hl
    simp only [pyInsert]
    by_cases h : le a b = true
    · simp only [h, if_true]
      refine List.pairwise_cons.mpr ⟨?_, hl⟩
      intro y hy
      rcases List.mem_cons.mp hy with rfl | hy2
      · exact h
      · exact htrans a (by simp) b (by simp) y (by simp [hy2]) h (hl2.1 y hy2)
    · have hba : le b a = true := (htot a b).resolve_left h
      simp only [h, if_false]
      refine List.pairwise_cons.mpr ⟨?_, ?_⟩
      · intro y hy
        have hy2 : y ∈ a :: bs := (pyInsert_perm le a bs).mem_iff.mp hy
        rcases List.mem_cons.mp hy2 with rfl | hy3
        · exact hba
        · exact hl2.1 y hy3
      · refine ih a ?_ hl2.2
        intro x hx y hy z hz
        have hlift : ∀ w : Val, w ∈ a :: bs → w ∈ a :: b :: bs := by
          intro w hw
          rcases List.mem_cons.mp hw with rfl | hw2
          · simp
          · simp [hw2]
        exact htrans x (hlift x hx) y (hlift y hy) z (hlift z hz)

theorem pySortRun_pairwise (le : Val → Val → Bool)
    (htot : ∀ x y : Val, le x y = true ∨ le y x = true) :
    ∀ l : List Val,
      (∀ x ∈ l, ∀ y ∈ l, ∀ z ∈ l, le x y = true → le y z = true → le x z = true) →
      List.Pairwise (fun x y => le x y = true) (pySortRun le l) := by
  intro l
  induction l with
  | nil =>
    intro _
    simp [pySortRun]
  | cons a rest ih =>
    intro htrans
    simp only [pySortRun]
    have hmem : ∀ w : Val, w ∈ a :: pySortRun le rest → w ∈ a :: rest := by
      intro w hw
      rcases List.mem_cons.mp hw with rfl | hw2
      · simp
      · simp [(pySortRun_perm le rest).mem_iff.mp hw2]
    refine pyInsert_pairwise le htot (pySortRun le rest) a ?_ ?_
    · intro x hx y hy z hz
      exact htrans x (hmem x hx) y (hmem y hy) z (hmem z hz)
    · refine ih ?_
      intro x hx y hy z hz
      exact htrans x (by simp [hx]) y (by simp [hy]) z (by simp [hz])

theorem pairwise_perm_eq (le : Val → Val → Bool) :
    ∀ (l1 l2 : List Val),
      (∀ x ∈ l1, ∀ y ∈ l1, le x y = true → le y x = true → x = y) →
      List.Pairwise (fun x y => le x y = true) l1 →
      List.Pairwise (fun x y => le x y = true) l2 →
      l1.Perm l2 → l1 = l2 := by
  intro l1
  induction l1 with
  | nil =>
    intro l2 _ _ _ hperm
    exact (List.Perm.eq_nil hperm.symm).symm
  | cons a t ih =>
    intro l2 hanti hp1 hp2 hperm
    cases l2 with
    | nil => simpa using List.Perm.eq_nil hperm
    | cons b t2 =>
      by_cases hab : a = b
      · subst hab
        have ht : t.Perm t2 := hperm.cons_inv
        have hrec : t = t2 := by
          refine ih t2 ?_ (List.pairwise_cons.mp hp1).2 (List.pairwise_cons.mp hp2).2 ht
          intro x hx y hy
          exact hanti x (by simp [hx]) y (by simp [hy])
        rw [hrec]
      · have ha2 : a ∈ b :: t2 := hperm.mem_iff.mp (by simp)
        have hb1 : b ∈ a :: t := hperm.mem_iff.mpr (by simp)
        have ha2b : a ∈ t2 := by
          rcases List.mem_cons.mp ha2 with h | h
          · exact absurd h hab
          · exact h
        have hb1a : b ∈ t := by
          rcases List.mem_cons.mp hb1 with h | h
          · exact absurd h.symm hab
          · exact h
        have h1 : le a b = true := (List.pairwise_cons.mp hp1).1 b hb1a
        have h2 : le b a = true := (List.pairwise_cons.mp hp2).1 a ha2b
        exact absurd (hanti a (by simp) b (by simp [hb1a]) h1 h2) hab

@[simp] theorem except_ok_bind {ε α β : Type} (a : α) (f : α → Except ε β) :
    (Except.ok a >>= f : Except ε β) = f a := rfl

@[simp] theorem except_error_bind {ε α β : Type} (e : ε) (f : α → Except ε β) :
    (Except.error e >>= f : Except ε β) = Except.error e := rfl

@[simp] theorem except_pure_eq {ε α : Type} (a : α) :
    (pure a : Except ε α) = Except.ok a := rfl

theorem pySortNat_ok {l s : List Val} :
    pySortNat l = .ok s ↔ allComparable l = true ∧ s = pySortRun pyLeB l := by
  rw [pySortNat]
  by_cases h : allComparable l = true
  · simp [h, eq_comm]
  · simp [h]

theorem pyKeysOf_ok {k : String} :
    ∀ {l ks : List Val}, pyKeysOf k l = .ok ks → ks = l.map (getKeyD k) := by
  intro l
  induction l with
  | nil =>
    intro ks h
    simp [pyKeysOf] at h
    simp [h]
  | cons v rest ih =>
    intro ks h
    rw [pyKeysOf] at h
    cases hv : pyKeyOf k v with
    | error e => simp [hv] at h
    | ok w =>
      cases hr : pyKeysOf k rest with
      | error e => simp [hv, hr] at h
      | ok ws =>
        simp only [hv, hr, except_ok_bind, Except.ok.injEq] at h
        have hw : w = getKeyD k v := by
          cases v <;> simp [pyKeyOf] at hv
          case dict d =>
            cases hl : pyLookup k d with
            | none => simp [hl] at hv
            | some u =>
              simp [hl] at hv
              simp [getKeyD, hl, hv]
        rw [← h, hw, ih hr]
        simp

theorem pySortByKey_ok {k : String} {l s : List Val} (h : pySortByKey k l = .ok s) :
    allComparable (l.map (getKeyD k)) = true ∧ s = pySortRun (keyLeB k) l := by
  rw [pySortByKey] at h
  cases hk : pyKeysOf k l with
  | error e => simp [hk] at h
  | ok ks =>
    rw [hk] at h
    by_cases hc : allComparable ks = true
    · simp [hc] at h
      exact ⟨by rw [← pyKeysOf_ok hk]; exact hc, h.symm⟩
    · simp [hc] at h

theorem allComparable_strs :
    ∀ {l : List Val}, (∀ x ∈ l, ∃ s, x = Val.str s) → allComparable l = true := by
  intro l
  induction l with
  | nil => simp [allComparable]
  | cons a rest ih =>
    intro h
    rw [allComparable_cons]
    constructor
    · intro b hb
      obtain ⟨s, rfl⟩ := h a (by simp)
      obtain ⟨t, rfl⟩ := h b (by simp [hb])
      simp [valCmp_str]
    · exact ih (fun x hx => h x (by simp [hx]))

theorem string_eq_of_data {s t : String} (h : s.data = t.data) : s = t := by
  cases s
  cases t
  simp at h
  simp [h]

theorem pyLeB_antisymm_str {s t : String}
    (h1 : pyLeB (Val.str s) (Val.str t) = true)
    (h2 : pyLeB (Val.str t) (Val.str s) = true) : Val.str s = Val.str t := by
  rw [pyLeB_eq_true_iff, valCmp_str] at h1 h2
  simp only [ne_eq, Option.some.injEq] at h1 h2
  have hsw : (lexCmp s.data t.data).swap = lexCmp t.data s.data := lexCmp_swap _ _
  have : lexCmp s.data t.data = Ordering.eq := by
    cases h : lexCmp s.data t.data with
    | eq => rfl
    | gt => exact absurd h h1
    | lt =>
      rw [h] at hsw
      exact absurd hsw.symm h2
  rw [string_eq_of_data ((lexCmp_eq_iff _ _).mp this)]

theorem pyEqList_strings :
    ∀ {l1 l2 : List Val},
      (∀ x ∈ l1, ∃ s, x = Val.str s) → (∀ x ∈ l2, ∃ s, x = Val.str s) →
      (pyEqList l1 l2 = true ↔ l1 = l2) := by
  intro l1
  induction l1 with
  | nil =>
    intro l2 _ _
    cases l2 <;> simp [pyEqList]
  | cons a as1 ih =>
    intro l2 h1 h2
    cases l2 with
    | nil => simp [pyEqList]
    | cons b bs =>
      obtain ⟨s, rfl⟩ := h1 a (by simp)
      obtain ⟨t, rfl⟩ := h2 b (by simp)
      rw [pyEqList]
      simp only [Bool.and_eq_true]
      rw [ih (fun x hx => h1 x (by simp [hx])) (fun x hx => h2 x (by simp [hx]))]
      rw [pyEq]
      simp

/-- Claim C3: in handler `match`, for a non-empty actual list whose first
element parses as an integer, if the number comparator's `match` of
`int(actual[0])` against `expected[0]` passes, the handler returns a pass
immediately — before any further comparison and before either input list
is sorted. -/
theorem match_numeric_fast_path {a : Val} {l : List Val} {e : Val} {B : List Val} {n : Int}
    (hn : pyToInt a = some n) (hp : (numberMatch e n).1 = true) :
    pyMatch (e :: B) (Val.list (a :: l)) =
      .ok ((true, "Check Passed"), Val.list (a :: l), e :: B) := by
  simp [pyMatch, fastPasses, hn, hp]

/-- Witness for C3: actual `["7", "3"]`, expected `[">= 5", "3"]`; the
first element parses as 7, the number comparator passes `7 >= 5`, and the
handler passes immediately with both lists unchanged. -/
theorem match_numeric_fast_path_witness :
    pyMatch [Val.str ">= 5", Val.str "3"] (Val.list [Val.str "7", Val.str "3"]) =
      .ok ((true, "Check Passed"), Val.list [Val.str "7", Val.str "3"],
        [Val.str ">= 5", Val.str "3"]) :=
  match_numeric_fast_path (n := 7) (by rfl) (by rfl)

/-- Claim C7: handler `match` on an actual value that is not a list, or is
an empty list, returns a failed verdict whose message reports the
offending value, and raises no exception. -/
theorem match_shape_fail (expected : List Val) (v : Val)
    (h : ∀ l : List Val, v = Val.list l → l = []) :
    pyMatch expected v =
      .ok ((false, "list::match failure. " ++ pyStr v ++ " is not an instance of list"),
        v, expected) := by
  cases v with
  | list l =>
    cases l with
    | nil => rfl
    | cons a t => exact absurd (h (a :: t) rfl) (by simp)
  | int n => rfl
  | bool b => rfl
  | str s => rfl
  | none => rfl
  | dict d => rfl

/-- Witness for C7: a bare integer is rejected with a failed verdict. -/
theorem match_shape_fail_witness :
    pyMatch [] (Val.int 3) =
      .ok ((false, "list::match failure. " ++ pyStr (Val.int 3) ++ " is not an instance of list"),
        Val.int 3, []) :=
  match_shape_fail [] (Val.int 3) (by intro l h; cases h)

/-- Counterexample to claim C2 as stated: actual `[5, 9]` and expected
`[5, 7]` differ in multiset content, yet `match` passes — the numeric
fast path compares only `int(actual[0])` against `expected[0]` and
short-circuits the rest of the comparison. -/
theorem match_multiset_counterexample :
    (pyMatch [Val.int 5, Val.int 7] (Val.list [Val.int 5, Val.int 9])).map (fun r => r.1.1)
        = .ok true
      ∧ ¬ ([Val.int 5, Val.int 9].Perm [Val.int 5, Val.int 7]) := by
  constructor
  · rfl
  · intro hperm
    have h9 : Val.int 9 ∈ [Val.int 5, Val.int 7] := hperm.mem_iff.mp (by simp)
    simp at h9

/-- Claim C2 (amended): restricted to sequences of scalar string elements
whose first actual element does not parse as an integer (so that the
numeric fast path cannot short-circuit and Python's sort neither raises
nor depends on sort stability), `match` passes exactly when the two
sequences have equal multiset content. -/
theorem match_multiset_strings (sa : String) (SA SB : List String)
    (hfast : pyParseInt sa = Option.none) :
    ∃ r, pyMatch (SB.map Val.str) (Val.list (Val.str sa :: SA.map Val.str)) = .ok r ∧
      (r.1.1 = true ↔ (Val.str sa :: SA.map Val.str).Perm (SB.map Val.str)) := by
  have hA : ∀ x ∈ Val.str sa :: SA.map Val.str, ∃ s, x = Val.str s := by
    intro x hx
    rcases List.mem_cons.mp hx with rfl | hx2
    · exact ⟨sa, rfl⟩
    · obtain ⟨s, _, rfl⟩ := List.mem_map.mp hx2
      exact ⟨s, rfl⟩
  have hB : ∀ x ∈ SB.map Val.str, ∃ s, x = Val.str s := by
    intro x hx
    obtain ⟨s, _, rfl⟩ := List.mem_map.mp hx
    exact ⟨s, rfl⟩
  have hcA : allComparable (Val.str sa :: SA.map Val.str) = true := allComparable_strs hA
  have hcB : allComparable (SB.map Val.str) = true := allComparable_strs hB
  have hsA := pySortRun_perm pyLeB (Val.str sa :: SA.map Val.str)
  have hsB := pySortRun_perm pyLeB (SB.map Val.str)
  have hmemA : ∀ x ∈ pySortRun pyLeB (Val.str sa :: SA.map Val.str), ∃ s, x = Val.str s :=
    fun x hx => hA x (hsA.mem_iff.mp hx)
  have hmemB : ∀ x ∈ pySortRun pyLeB (SB.map Val.str), ∃ s, x = Val.str s :=
    fun x hx => hB x (hsB.mem_iff.mp hx)
  refine ⟨((pyEqList (pySortRun pyLeB (Val.str sa :: SA.map Val.str))
      (pySortRun pyLeB (SB.map Val.str)),
      if pyEqList (pySortRun pyLeB (Val.str sa :: SA.map Val.str))
          (pySortRun pyLeB (SB.map Val.str)) then "Check Passed"
        else "list::match failure. Got=" ++
          pyStr (Val.list (pySortRun pyLeB (Val.str sa :: SA.map Val.str)))),
      Val.list (pySortRun pyLeB (Val.str sa :: SA.map Val.str)),
      pySortRun pyLeB (SB.map Val.str)), ?_, ?_⟩
  · rw [pyMatch]
    have h1 : fastPasses (SB.map Val.str) (Val.str sa) = .ok false := by
      rw [fastPasses]
      simp [pyToInt, hfast]
    rw [h1]
    simp only [except_ok_bind, if_false, Bool.false_eq_true]
    rw [pySortNat, pySortNat]
    simp only [hcA, hcB, if_true, except_ok_bind]
    by_cases he : pyEqList (pySortRun pyLeB (Val.str sa :: SA.map Val.str))
        (pySortRun pyLeB (SB.map Val.str)) = true
    · simp [he]
    · simp [he]
    · simp
  · simp only []
    rw [pyEqList_strings hmemA hmemB]
    constructor
    · intro heq
      exact (hsA.symm.trans (heq ▸ hsB))
    · intro hperm
      have hsorted : (pySortRun pyLeB (Val.str sa :: SA.map Val.str)).Perm
          (pySortRun pyLeB (SB.map Val.str)) :=
        (hsA.trans hperm).trans hsB.symm
      have htransA : ∀ x ∈ Val.str sa :: SA.map Val.str, ∀ y ∈ Val.str sa :: SA.map Val.str,
          ∀ z ∈ Val.str sa :: SA.map Val.str,
          pyLeB x y = true → pyLeB y z = true → pyLeB x z = true := by
        have := pyLeB_trans_mem (f := fun v => v) (l := Val.str sa :: SA.map Val.str)
          (fun x hx y hy => by
            obtain ⟨s, rfl⟩ := hA x hx
            obtain ⟨t, rfl⟩ := hA y hy
            exact Or.inr (by simp [valCmp_str]))
        exact this
      have htransB : ∀ x ∈ SB.map Val.str, ∀ y ∈ SB.map Val.str, ∀ z ∈ SB.map Val.str,
          pyLeB x y = true → pyLeB y z = true → pyLeB x z = true := by
        have := pyLeB_trans_mem (f := fun v => v) (l := SB.map Val.str)
          (fun x hx y hy => by
            obtain ⟨s, rfl⟩ := hB x hx
            obtain ⟨t, rfl⟩ := hB y hy
            exact Or.inr (by simp [valCmp_str]))
        exact this
      refine pairwise_perm_eq pyLeB _ _ ?_
        (pySortRun_pairwise pyLeB pyLeB_total _ htransA)
        (pySortRun_pairwise pyLeB pyLeB_total _ htransB) hsorted
      intro x hx y hy h1 h2
      obtain ⟨s, rfl⟩ := hmemA x hx
      obtain ⟨t, rfl⟩ := hmemA y hy
      exact pyLeB_antisymm_str h1 h2

/-- Witness for C2 (amended): actual `["b", "a"]` against expected
`["a", "b"]` passes (equal multisets), and the same actual against
`["a", "c"]` fails. -/
theorem match_multiset_strings_witness :
    (∃ r, pyMatch [Val.str "a", Val.str "b"] (Val.list [Val.str "b", Val.str "a"]) = .ok r ∧
      r.1.1 = true) ∧
    (∃ r, pyMatch [Val.str "a", Val.str "c"] (Val.list [Val.str "b", Val.str "a"]) = .ok r ∧
      r.1.1 = false) := by
  constructor
  · obtain ⟨r, hr, hiff⟩ := match_multiset_strings "b" ["a"] ["a", "b"] (by rfl)
    refine ⟨r, hr, hiff.mpr ?_⟩
    have : [Val.str "b", Val.str "a"].Perm [Val.str "a", Val.str "b"] :=
      List.Perm.swap (Val.str "a") (Val.str "b") []
    simpa using this
  · obtain ⟨r, hr, hiff⟩ := match_multiset_strings "b" ["a"] ["a", "c"] (by rfl)
    refine ⟨r, hr, ?_⟩
    have hne : ¬ ([Val.str "b", Val.str "a"].Perm [Val.str "a", Val.str "c"]) := by
      intro hperm
      have hm : Val.str "b" ∈ [Val.str "a", Val.str "c"] := hperm.mem_iff.mp (by simp)
      simp at hm
    have := hiff
    simp only [List.map] at this
    rcases hb : r.1.1 with _ | _
    · rfl
    · exact absurd (this.mp hb) (by simpa using hne)

theorem pySortNat_ok_props {l s : List Val} (h : pySortNat l = .ok s) :
    s.Perm l ∧ List.Pairwise (fun x y => pyLeB x y = true) s := by
  obtain ⟨hc, rfl⟩ := pySortNat_ok.mp h
  refine ⟨pySortRun_perm _ _, pySortRun_pairwise _ pyLeB_total _ ?_⟩
  refine pyLeB_trans_mem (f := fun v => v) ?_
  exact hcomp_of_allComparable (f := fun v => v) (by simpa using hc)

theorem pySortByKey_ok_props {k : String} {l s : List Val} (h : pySortByKey k l = .ok s) :
    s.Perm l ∧ List.Pairwise (fun x y => keyLeB k x y = true) s := by
  obtain ⟨hc, rfl⟩ := pySortByKey_ok h
  refine ⟨pySortRun_perm _ _, pySortRun_pairwise _ (fun x y => pyLeB_total _ _) _ ?_⟩
  exact pyLeB_trans_mem (f := getKeyD k) (hcomp_of_allComparable hc)

theorem sortPairNat_inv {L E : List Val} {res : Bool × String} {A2 B2 : List Val}
    (hok : (do
        let sortedA ← pySortNat L
        let sortedB ← pySortNat E
        if pyEqList sortedA sortedB then
          pure ((true, "Check Passed"), Val.list sortedA, sortedB)
        else
          pure ((false, "list::match failure. Got=" ++ pyStr (Val.list sortedA)),
            Val.list sortedA, sortedB) : Except String ((Bool × String) × Val × List Val))
      = .ok (res, Val.list A2, B2)) :
    pySortNat L = .ok A2 ∧ pySortNat E = .ok B2 := by
  cases h1 : pySortNat L with
  | error e =>
    rw [h1] at hok
    simp at hok
  | ok sA =>
    rw [h1] at hok
    simp only [except_ok_bind] at hok
    cases h2 : pySortNat E with
    | error e =>
      rw [h2] at hok
      simp at hok
    | ok sB =>
      rw [h2] at hok
      simp only [except_ok_bind] at hok
      by_cases hpe : pyEqList sA sB = true
      · simp only [hpe, if_true, except_pure_eq, Except.ok.injEq, Prod.mk.injEq,
          Val.list.injEq] at hok
        rw [hok.2.1, hok.2.2]
        exact ⟨rfl, rfl⟩
      · simp only [hpe, if_false, except_pure_eq, Except.ok.injEq, Prod.mk.injEq,
          Val.list.injEq, Bool.false_eq_true] at hok
        rw [hok.2.1, hok.2.2]
        exact ⟨rfl, rfl⟩

theorem sortPairKey_inv {k : String} {L E : List Val} {res : Bool × String} {A2 B2 : List Val}
    (hok : (do
        let sortedA ← pySortByKey k L
        let sortedB ← pySortByKey k E
        if pyEqList sortedA sortedB then
          pure ((true, "Check Passed"), Val.list sortedA, sortedB)
        else
          pure ((false, "list::match failure. Got=" ++ pyStr (Val.list sortedA)),
            Val.list sortedA, sortedB) : Except String ((Bool × String) × Val × List Val))
      = .ok (res, Val.list A2, B2)) :
    pySortByKey k L = .ok A2 ∧ pySortByKey k E = .ok B2 := by
  cases h1 : pySortByKey k L with
  | error e =>
    rw [h1] at hok
    simp at hok
  | ok sA =>
    rw [h1] at hok
    simp only [except_ok_bind] at hok
    cases h2 : pySortByKey k E with
    | error e =>
      rw [h2] at hok
      simp at hok
    | ok sB =>
      rw [h2] at hok
      simp only [except_ok_bind] at hok
      by_cases hpe : pyEqList sA sB = true
      · simp only [hpe, if_true, except_pure_eq, Except.ok.injEq, Prod.mk.injEq,
          Val.list.injEq] at hok
        rw [hok.2.1, hok.2.2]
        exact ⟨rfl, rfl⟩
      · simp only [hpe, if_false, except_pure_eq, Except.ok.injEq, Prod.mk.injEq,
          Val.list.injEq, Bool.false_eq_true] at hok
        rw [hok.2.1, hok.2.2]
        exact ⟨rfl, rfl⟩

/-- Claim C8: when handler `match` proceeds past its numeric fast path on
a non-empty actual list and returns without an exception, both the actual
and the expected sequences have been sorted in place: each post-call
sequence is a permutation of the corresponding input, ordered by the
branch's sort order (first-key order for a leading dict, natural order
otherwise). -/
theorem match_mutates_to_sorted (expected : List Val) (a : Val) (l : List Val)
    (res : Bool × String) (A2 B2 : List Val)
    (hfast : fastPasses expected a = .ok false)
    (hok : pyMatch expected (Val.list (a :: l)) = .ok (res, Val.list A2, B2)) :
    A2.Perm (a :: l) ∧ B2.Perm expected ∧
    List.Pairwise (fun x y => matchLe a x y = true) A2 ∧
    List.Pairwise (fun x y => matchLe a x y = true) B2 := by
  cases a
  case dict d =>
    cases d with
    | nil =>
      simp only [pyMatch, hfast, except_ok_bind, Bool.false_eq_true, if_false] at hok
      simp at hok
    | cons kv rest =>
      obtain ⟨k, v0⟩ := kv
      simp only [pyMatch, hfast, except_ok_bind, Bool.false_eq_true, if_false] at hok
      obtain ⟨hA, hB⟩ := sortPairKey_inv hok
      have pA := pySortByKey_ok_props hA
      have pB := pySortByKey_ok_props hB
      exact ⟨pA.1, pB.1, pA.2, pB.2⟩
  all_goals
    simp only [pyMatch, hfast, except_ok_bind, Bool.false_eq_true, if_false] at hok
    obtain ⟨hA, hB⟩ := sortPairNat_inv hok
    have pA := pySortNat_ok_props hA
    have pB := pySortNat_ok_props hB
    exact ⟨pA.1, pB.1, pA.2, pB.2⟩

/-- Witness for C8: actual `["b", "a"]` with expected `["a", "b"]` takes
the natural-sort branch; afterwards both lists are observed in sorted
order `["a", "b"]`. -/
theorem match_mutates_to_sorted_witness :
    ([Val.str "a", Val.str "b"].Perm [Val.str "b", Val.str "a"] ∧
      [Val.str "a", Val.str "b"].Perm [Val.str "a", Val.str "b"] ∧
      List.Pairwise (fun x y => matchLe (Val.str "b") x y = true)
        [Val.str "a", Val.str "b"] ∧
      List.Pairwise (fun x y => matchLe (Val.str "b") x y = true)
        [Val.str "a", Val.str "b"]) := by
  have hok : pyMatch [Val.str "a", Val.str "b"] (Val.list [Val.str "b", Val.str "a"]) =
      .ok ((true, "Check Passed"), Val.list [Val.str "a", Val.str "b"],
        [Val.str "a", Val.str "b"]) := by
    simp [pyMatch, fastPasses, pyToInt, pyParseInt, trimChars, isDigits, pySortNat,
      allComparable, valCmp, numVal, lexCmp, pySortRun, pyInsert, pyLeB, pyEqList, pyEq,
      cmp, cmpUsing]
  exact match_mutates_to_sorted [Val.str "a", Val.str "b"] (Val.str "b") [Val.str "a"]
    (true, "Check Passed") [Val.str "a", Val.str "b"] [Val.str "a", Val.str "b"]
    (by rfl) hok

/-- Claim C9: the verdict of handler `size` on a sequence S equals the
verdict of the number comparator's `match` of the expression against
`len(S)` (the messages differ, the verdicts never do). -/
theorem size_delegates_to_number (e : Val) (S : List Val) :
    (pySize e (Val.list S)).map Prod.fst = .ok (numberMatch e (Int.ofNat S.length)).1 := by
  rw [pySize]
  simp only [pyLen, except_ok_bind]
  by_cases h : (numberMatch e (Int.ofNat S.length)).1 = true
  · rw [if_pos h, h]
    rfl
  · rw [if_neg h]
    simp only [Bool.not_eq_true] at h
    rw [h]
    rfl

theorem makInner_spec (ic : Bool) (key : String) (r : Val) {d : List (String × Val)}
    {w : Val} (hr : r = Val.dict d) (hw : pyLookup key d = some w) :
    ∀ (argsL : List Val) (failed : Bool), (∀ x ∈ argsL, ∃ dx, x = Val.dict dx) →
      makInner ic key r argsL failed =
        (if argsL.any (fun x => keyHitB key r x && dictMatchB ic x r) then .ok Option.none
         else .ok (some (failed || argsL.any (fun x => keyHitB key r x)))) := by
  intro argsL
  induction argsL with
  | nil =>
    intro failed _
    simp [makInner]
  | cons x xs ih =>
    intro failed hx
    obtain ⟨dx, rfl⟩ := hx x (by simp)
    rw [makInner]
    have h1 : pyKeyOf key r = .ok w := by rw [hr, pyKeyOf, hw]
    rw [h1]
    have h2 : makGet key (Val.dict dx) = .ok ((pyLookup key dx).getD Val.none) := rfl
    rw [h2]
    simp only [except_ok_bind]
    have hkv : getKeyD key r = w := by
      rw [hr]
      simp [getKeyD, hw]
    have hhit : keyHitB key r (Val.dict dx) = pyEq w ((pyLookup key dx).getD Val.none) := by
      rw [keyHitB, hkv]
      rfl
    by_cases hh : pyEq w ((pyLookup key dx).getD Val.none) = true
    · rw [if_pos hh]
      by_cases hm : dictMatchB ic (Val.dict dx) r = true
      · have hfst : (dictMatch ic (Val.dict dx) r).1 = true := by
          rw [dictMatch, if_pos hm]
        have hsnd : (dictMatch ic (Val.dict dx) r).2 = "Check Passed" := by
          rw [dictMatch, if_pos hm]
        rw [if_pos ⟨hfst, by rw [hsnd]; decide⟩]
        have hcond : ((Val.dict dx :: xs).any fun y => keyHitB key r y && dictMatchB ic y r)
            = true := by
          rw [List.any_cons]
          have hxh : (keyHitB key r (Val.dict dx) && dictMatchB ic (Val.dict dx) r) = true := by
            rw [hhit]
            simp [hh, hm]
          rw [hxh]
          rfl
        rw [if_pos hcond]
      · have hfst : (dictMatch ic (Val.dict dx) r).1 = false := by
          rw [dictMatch, if_neg hm]
        rw [if_neg (by intro hcon; rw [hfst] at hcon; exact absurd hcon.1 (by simp))]
        rw [if_pos (by rw [hfst])]
        rw [ih true (fun y hy => hx y (by simp [hy]))]
        have hks : keyHitB key r (Val.dict dx) = true := by rw [hhit]; exact hh
        have hkm : (keyHitB key r (Val.dict dx) && dictMatchB ic (Val.dict dx) r) = false := by
          rw [hks]
          simpa using hm
        rw [List.any_cons, List.any_cons, hkm, hks]
        simp
    · rw [if_neg hh]
      rw [ih failed (fun y hy => hx y (by simp [hy]))]
      have hks : keyHitB key r (Val.dict dx) = false := by
        rw [hhit]
        simpa using hh
      have hkm : (keyHitB key r (Val.dict dx) && dictMatchB ic (Val.dict dx) r) = false := by
        rw [hks]
        rfl
      rw [List.any_cons, List.any_cons, hkm, hks]
      simp

theorem makOuter_spec (ic : Bool) (key : String) (argsL : List Val) (failMsg : String)
    (hargs : ∀ x ∈ argsL, ∃ dx, x = Val.dict dx) :
    ∀ (elems : List Val) (failed : Bool),
      (∀ r ∈ elems, ∃ d w, r = Val.dict d ∧ pyLookup key d = some w) →
      makOuter ic key argsL failMsg elems failed =
        (if elems.any (fun r => argsL.any (fun x => keyHitB key r x && dictMatchB ic x r))
         then .ok (true, "Check Passed")
         else .ok (if failed || elems.any (fun r => argsL.any (fun x => keyHitB key r x))
           then (false, failMsg) else (true, "Check Passed"))) := by
  intro elems
  induction elems with
  | nil =>
    intro failed _
    simp [makOuter]
  | cons r rest ih =>
    intro failed helems
    obtain ⟨d, w, hr, hw⟩ := helems r (by simp)
    rw [makOuter]
    rw [makInner_spec ic key r hr hw argsL failed hargs]
    by_cases hp : (argsL.any fun x => keyHitB key r x && dictMatchB ic x r) = true
    · rw [if_pos hp]
      simp only [except_ok_bind]
      have hcond : ((r :: rest).any fun r2 =>
          argsL.any fun x => keyHitB key r2 x && dictMatchB ic x r2) = true := by
        rw [List.any_cons, hp]
        rfl
      rw [if_pos hcond]
    · rw [if_neg hp]
      simp only [except_ok_bind]
      rw [ih (failed || argsL.any fun x => keyHitB key r x)
        (fun y hy => helems y (by simp [hy]))]
      have hp2 : (argsL.any fun x => keyHitB key r x && dictMatchB ic x r) = false := by
        simpa using hp
      rw [List.any_cons, List.any_cons, hp2]
      simp only [Bool.false_or, Bool.or_assoc]

/-- Claim C1: the tri-state contract of `match_any_if_keyvalue_matches`
(for well-shaped inputs: every actual element a mapping carrying the match
key, every expected entry a mapping): if no actual element's match-key
value equals any expected set's match-key value the handler passes; if
some (element, expected-set) pair with equal match-key values passes the
delegated mapping comparison the handler passes immediately; and if at
least one pair with equal match-key values exists and every such pair
fails the delegated comparison, the handler fails. -/
theorem mak_tristate (ic : Bool) (key : String) (argsL A : List Val)
    (hargs : ∀ x ∈ argsL, ∃ dx, x = Val.dict dx)
    (helems : ∀ r ∈ A, ∃ d w, r = Val.dict d ∧ pyLookup key d = some w) :
    ((∀ r ∈ A, ∀ x ∈ argsL, keyHitB key r x = false) →
        pyMatchAnyIfKeyvalueMatches ic key argsL (Val.list A) = .ok (true, "Check Passed")) ∧
    ((∃ r ∈ A, ∃ x ∈ argsL, keyHitB key r x = true ∧ dictMatchB ic x r = true) →
        pyMatchAnyIfKeyvalueMatches ic key argsL (Val.list A) = .ok (true, "Check Passed")) ∧
    ((∃ r ∈ A, ∃ x ∈ argsL, keyHitB key r x = true) →
      (∀ r ∈ A, ∀ x ∈ argsL, keyHitB key r x = true → dictMatchB ic x r = false) →
        pyMatchAnyIfKeyvalueMatches ic key argsL (Val.list A) =
          .ok (false, "list::match_any_if_keyvalue_matches failure. Got="
            ++ pyStr (Val.list A))) := by
  have hbase : pyMatchAnyIfKeyvalueMatches ic key argsL (Val.list A) =
      makOuter ic key argsL
        ("list::match_any_if_keyvalue_matches failure. Got=" ++ pyStr (Val.list A))
        A false := by
    rw [pyMatchAnyIfKeyvalueMatches]
    rfl
  rw [hbase, makOuter_spec ic key argsL _ hargs A false helems]
  refine ⟨?_, ?_, ?_⟩
  · intro hnone
    have h1 : (A.any fun r => argsL.any fun x => keyHitB key r x && dictMatchB ic x r)
        = false := by
      rw [List.any_eq_false]
      intro r hr hcon
      rw [List.any_eq_true] at hcon
      obtain ⟨x, hx, hxx⟩ := hcon
      rw [hnone r hr x hx] at hxx
      simp at hxx
    have h2 : (A.any fun r => argsL.any fun x => keyHitB key r x) = false := by
      rw [List.any_eq_false]
      intro r hr hcon
      rw [List.any_eq_true] at hcon
      obtain ⟨x, hx, hxx⟩ := hcon
      rw [hnone r hr x hx] at hxx
      simp at hxx
    rw [if_neg (by rw [h1]; exact Bool.false_ne_true), h2]
    simp
  · intro hex
    obtain ⟨r, hr, x, hx, hhit, hpass⟩ := hex
    have h1 : (A.any fun r => argsL.any fun x => keyHitB key r x && dictMatchB ic x r)
        = true := by
      rw [List.any_eq_true]
      refine ⟨r, hr, ?_⟩
      rw [List.any_eq_true]
      exact ⟨x, hx, by rw [hhit, hpass]; rfl⟩
    rw [if_pos h1]
  · intro hex hallfail
    obtain ⟨r, hr, x, hx, hhit⟩ := hex
    have h1 : (A.any fun r => argsL.any fun x => keyHitB key r x && dictMatchB ic x r)
        = false := by
      rw [List.any_eq_false]
      intro r2 hr2 hcon
      rw [List.any_eq_true] at hcon
      obtain ⟨x2, hx2, hxx⟩ := hcon
      rw [Bool.and_eq_true] at hxx
      have := hallfail r2 hr2 x2 hx2 hxx.1
      rw [this] at hxx
      exact absurd hxx.2 (by simp)
    have h2 : (A.any fun r => argsL.any fun x => keyHitB key r x) = true := by
      rw [List.any_eq_true]
      refine ⟨r, hr, ?_⟩
      rw [List.any_eq_true]
      exact ⟨x, hx, hhit⟩
    rw [if_neg (by rw [h1]; exact Bool.false_ne_true), h2]
    simp

/-- Witness for C1: the rule with match key `name` and one expected set
naming `abc`, on the three spec scenarios — the name `abc` absent passes,
present and matching passes, present with a mismatching attribute set
fails. -/
theorem mak_tristate_witness :
    (pyMatchAnyIfKeyvalueMatches false "name" [Val.dict [("name", Val.str "abc")]]
        (Val.list [Val.dict [("name", Val.str "x")]]) = .ok (true, "Check Passed")) ∧
    (pyMatchAnyIfKeyvalueMatches false "name" [Val.dict [("name", Val.str "abc")]]
        (Val.list [Val.dict [("name", Val.str "abc")]]) = .ok (true, "Check Passed")) ∧
    (pyMatchAnyIfKeyvalueMatches false "name"
        [Val.dict [("name", Val.str "abc"), ("running", Val.bool false)]]
        (Val.list [Val.dict [("name", Val.str "abc")]]) =
      .ok (false, "list::match_any_if_keyvalue_matches failure. Got="
        ++ pyStr (Val.list [Val.dict [("name", Val.str "abc")]]))) := by
  refine ⟨?_, ?_, ?_⟩
  · refine (mak_tristate false "name" [Val.dict [("name", Val.str "abc")]]
      [Val.dict [("name", Val.str "x")]] ?_ ?_).1 ?_
    · intro x hx
      simp at hx
      exact ⟨[("name", Val.str "abc")], hx⟩
    · intro r hr
      simp at hr
      exact ⟨[("name", Val.str "x")], Val.str "x", hr, by simp [pyLookup]⟩
    · intro r hr x hx
      simp at hr hx
      rw [hr, hx]
      simp [keyHitB, getKeyD, getDefD, pyLookup, pyEq]
  · refine (mak_tristate false "name" [Val.dict [("name", Val.str "abc")]]
      [Val.dict [("name", Val.str "abc")]] ?_ ?_).2.1 ?_
    · intro x hx
      simp at hx
      exact ⟨[("name", Val.str "abc")], hx⟩
    · intro r hr
      simp at hr
      exact ⟨[("name", Val.str "abc")], Val.str "abc", hr, by simp [pyLookup]⟩
    · refine ⟨Val.dict [("name", Val.str "abc")], by simp,
        Val.dict [("name", Val.str "abc")], by simp, ?_, ?_⟩
      · simp [keyHitB, getKeyD, getDefD, pyLookup, pyEq]
      · simp [dictMatchB, pyLookup, applyCase, pyEq]
  · refine (mak_tristate false "name"
      [Val.dict [("name", Val.str "abc"), ("running", Val.bool false)]]
      [Val.dict [("name", Val.str "abc")]] ?_ ?_).2.2 ?_ ?_
    · intro x hx
      simp at hx
      exact ⟨[("name", Val.str "abc"), ("running", Val.bool false)], hx⟩
    · intro r hr
      simp at hr
      exact ⟨[("name", Val.str "abc")], Val.str "abc", hr, by simp [pyLookup]⟩
    · refine ⟨Val.dict [("name", Val.str "abc")], by simp,
        Val.dict [("name", Val.str "abc"), ("running", Val.bool false)], by simp, ?_⟩
      simp [keyHitB, getKeyD, getDefD, pyLookup, pyEq]
    · intro r hr x hx hhit
      simp at hr hx
      rw [hr, hx]
      simp [dictMatchB, pyLookup, applyCase, pyEq]

/-- Counterexample to claim C10 as stated: with an empty expected
attribute-set list, the match-key lookup is never executed — on the actual
list `[5]`, whose element is not a mapping at all, the handler raises
nothing and returns a pass. -/
theorem mak_unguarded_counterexample :
    pyMatchAnyIfKeyvalueMatches false "name" [] (Val.list [Val.int 5]) =
      .ok (true, "Check Passed") := by
  rfl

/-- Claim C10 (amended): when the expected attribute-set list is non-empty,
the `match_key` lookup on each scanned actual element is unguarded — if an
element that is not a mapping or lacks the match key is reached before any
(element, expected-set) pair passes the delegated comparison, the handler
raises a lookup/type error instead of returning a verdict (first
conjunct); an expected attribute set, by contrast, may miss the match key:
the handler then never raises, reading the missing key as `None`
(second conjunct). -/
theorem mak_unguarded_lookup :
    (∀ (ic : Bool) (key : String) (x0 : Val) (xs pre rest : List Val) (bad : Val),
      (∀ x ∈ x0 :: xs, ∃ dx, x = Val.dict dx) →
      (∀ r ∈ pre, ∃ d w, r = Val.dict d ∧ pyLookup key d = some w) →
      (∀ r ∈ pre, ∀ x ∈ x0 :: xs, ¬(keyHitB key r x = true ∧ dictMatchB ic x r = true)) →
      (∀ d, bad = Val.dict d → pyLookup key d = Option.none) →
      ∃ msg, pyMatchAnyIfKeyvalueMatches ic key (x0 :: xs) (Val.list (pre ++ bad :: rest)) =
        .error msg) ∧
    (∀ (ic : Bool) (key : String) (argsL A : List Val),
      (∀ x ∈ argsL, ∃ dx, x = Val.dict dx) →
      (∀ r ∈ A, ∃ d w, r = Val.dict d ∧ pyLookup key d = some w) →
      ∃ out, pyMatchAnyIfKeyvalueMatches ic key argsL (Val.list A) = .ok out) := by
  constructor
  · intro ic key x0 xs pre rest bad hargs hpre hnopass hbad
    have hstuck : ∀ (pre2 : List Val),
        (∀ r ∈ pre2, ∃ d w, r = Val.dict d ∧ pyLookup key d = some w) →
        (∀ r ∈ pre2, ∀ x ∈ x0 :: xs, ¬(keyHitB key r x = true ∧ dictMatchB ic x r = true)) →
        ∀ failed : Bool, ∃ msg,
          makOuter ic key (x0 :: xs)
            ("list::match_any_if_keyvalue_matches failure. Got="
              ++ pyStr (Val.list (pre ++ bad :: rest)))
            (pre2 ++ bad :: rest) failed = .error msg := by
      intro pre2
      induction pre2 with
      | nil =>
        intro _ _ failed
        simp only [List.nil_append]
        rw [makOuter, makInner]
        have hke : ∃ msg, pyKeyOf key bad = .error msg := by
          cases bad with
          | dict d =>
            rw [pyKeyOf, hbad d rfl]
            exact ⟨_, rfl⟩
          | int n => exact ⟨_, rfl⟩
          | bool b => exact ⟨_, rfl⟩
          | str s => exact ⟨_, rfl⟩
          | none => exact ⟨_, rfl⟩
          | list l => exact ⟨_, rfl⟩
        obtain ⟨msg, hmsg⟩ := hke
        rw [hmsg]
        exact ⟨msg, rfl⟩
      | cons r pre3 ih =>
        intro hpre2 hnopass2 failed
        obtain ⟨d, w, hr, hw⟩ := hpre2 r (by simp)
        simp only [List.cons_append]
        rw [makOuter]
        rw [makInner_spec ic key r hr hw (x0 :: xs) failed hargs]
        have hp : ((x0 :: xs).any fun x => keyHitB key r x && dictMatchB ic x r) = false := by
          rw [List.any_eq_false]
          intro x hx hcon
          rw [Bool.and_eq_true] at hcon
          exact hnopass2 r (by simp) x hx ⟨hcon.1, hcon.2⟩
        rw [if_neg (by rw [hp]; exact Bool.false_ne_true)]
        simp only [except_ok_bind]
        exact ih (fun y hy => hpre2 y (by simp [hy]))
          (fun y hy => hnopass2 y (by simp [hy]))
          (failed || (x0 :: xs).any fun x => keyHitB key r x)
    obtain ⟨msg, hmsg⟩ := hstuck pre hpre hnopass false
    refine ⟨msg, ?_⟩
    rw [pyMatchAnyIfKeyvalueMatches]
    simpa [pyIter] using hmsg
  · intro ic key argsL A hargs helems
    rw [pyMatchAnyIfKeyvalueMatches]
    simp only [pyIter, except_ok_bind]
    rw [makOuter_spec ic key argsL _ hargs A false helems]
    by_cases h : (A.any fun r => argsL.any fun x => keyHitB key r x && dictMatchB ic x r)
        = true
    · rw [if_pos h]
      exact ⟨_, rfl⟩
    · rw [if_neg h]
      exact ⟨_, rfl⟩

/-- Witness for C10 (amended): on the rule with match key `name` and one
expected set, the actual list `[{ running: False }]` (a mapping missing
the match key) raises `KeyError`, while an expected set missing the match
key never raises — `[{ name: x }]` against expected `[{}]` returns a
verdict. -/
theorem mak_unguarded_lookup_witness :
    (∃ msg, pyMatchAnyIfKeyvalueMatches false "name" [Val.dict [("name", Val.str "abc")]]
        (Val.list [Val.dict [("running", Val.bool false)]]) = .error msg) ∧
    (∃ out, pyMatchAnyIfKeyvalueMatches false "name" [Val.dict []]
        (Val.list [Val.dict [("name", Val.str "x")]]) = .ok out) := by
  constructor
  · refine mak_unguarded_lookup.1 false "name" (Val.dict [("name", Val.str "abc")]) [] []
      [] (Val.dict [("running", Val.bool false)]) ?_ ?_ ?_ ?_
    · intro x hx
      simp at hx
      exact ⟨[("name", Val.str "abc")], hx⟩
    · intro r hr
      simp at hr
    · intro r hr
      simp at hr
    · intro d hd
      simp at hd
      rw [← hd]
      simp [pyLookup]
  · refine mak_unguarded_lookup.2 false "name" [Val.dict []]
      [Val.dict [("name", Val.str "x")]] ?_ ?_
    · intro x hx
      simp at hx
      exact ⟨[], hx⟩
    · intro r hr
      simp at hr
      exact ⟨[("name", Val.str "x")], Val.str "x", hr, by simp [pyLookup]⟩

theorem matchAllPair_wf (orch : Val → Val → Bool × String) (ic : Bool) {p : Val} (r : Val)
    (hwf : wfPattern p) : matchAllPair orch ic p r = .ok (pairSatB orch ic p r) := by
  cases r with
  | dict dr => rfl
  | int n => ?_
  | bool b => ?_
  | str s => ?_
  | none => ?_
  | list l => ?_
  all_goals
    cases p with
    | dict pl =>
      obtain ⟨k, v, rest, rfl, hsafe⟩ := hwf pl rfl
      rw [matchAllPair, pairSatB]
      rw [hsafe]
      simp only [except_ok_bind]
      by_cases hh : pyHasTypeB v = true
      · rw [if_pos hh, hh]
        rfl
      · rw [if_neg hh]
        have : pyHasTypeB v = false := by simpa using hh
        rw [this]
        rfl
      all_goals simp
    | int n2 => rfl
    | bool b2 => rfl
    | str s2 => rfl
    | none => rfl
    | list l2 => rfl

theorem matchAllScan_spec (orch : Val → Val → Bool × String) (ic : Bool) {p : Val}
    (hwf : wfPattern p) :
    ∀ elems : List Val,
      matchAllScan orch ic p elems = .ok (elems.any (fun r => pairSatB orch ic p r)) := by
  intro elems
  induction elems with
  | nil => rfl
  | cons r rest ih =>
    rw [matchAllScan, matchAllPair_wf orch ic r hwf]
    simp only [except_ok_bind]
    by_cases hs : pairSatB orch ic p r = true
    · rw [if_pos hs, List.any_cons, hs]
      rfl
    · rw [if_neg hs, ih, List.any_cons]
      have : pairSatB orch ic p r = false := by simpa using hs
      rw [this]
      rfl

theorem matchAllGo_spec (orch : Val → Val → Bool × String) (ic : Bool)
    (elems : List Val) (failMsg : String) :
    ∀ patterns : List Val, (∀ p ∈ patterns, wfPattern p) →
      matchAllGo orch ic elems failMsg patterns =
        .ok (if patterns.all (fun p => elems.any (fun r => pairSatB orch ic p r))
          then (true, "Check Passed") else (false, failMsg)) := by
  intro patterns
  induction patterns with
  | nil =>
    intro _
    rfl
  | cons p ps ih =>
    intro hwf
    rw [matchAllGo, matchAllScan_spec orch ic (hwf p (by simp))]
    simp only [except_ok_bind]
    by_cases hs : (elems.any fun r => pairSatB orch ic p r) = true
    · rw [if_pos hs, ih (fun q hq => hwf q (by simp [hq])), List.all_cons, hs]
      rfl
    · rw [if_neg hs, List.all_cons]
      have : (elems.any fun r => pairSatB orch ic p r) = false := by simpa using hs
      rw [this]
      rfl

/-- Claim C5: `match_all` (on DSL-shaped patterns, for any orchestrator
`orch` serving the nested type-tagged sub-specifications) passes iff every
expected pattern is satisfied by at least one actual element; a single
unsatisfied pattern forces a fail regardless of the others. -/
theorem match_all_iff (orch : Val → Val → Bool × String) (ic : Bool)
    (patterns A : List Val) (hwf : ∀ p ∈ patterns, wfPattern p) :
    ∃ r, pyMatchAll orch ic patterns (Val.list A) = .ok r ∧
      (r.1 = true ↔ ∀ p ∈ patterns, ∃ a ∈ A, pairSatB orch ic p a = true) := by
  rw [pyMatchAll]
  simp only [pyIter, except_ok_bind]
  rw [matchAllGo_spec orch ic A _ patterns hwf]
  by_cases h : (patterns.all fun p => A.any fun r => pairSatB orch ic p r) = true
  · rw [if_pos h]
    refine ⟨(true, "Check Passed"), rfl, ?_⟩
    simp only [true_iff]
    rw [List.all_eq_true] at h
    intro p hp
    have := h p hp
    rw [List.any_eq_true] at this
    exact this
  · rw [if_neg h]
    refine ⟨(false, "Check failed, got=" ++ pyStr (Val.list A)), rfl, ?_⟩
    constructor
    · intro hcon
      cases hcon
    · intro hall
      exfalso
      apply h
      rw [List.all_eq_true]
      intro p hp
      rw [List.any_eq_true]
      exact hall p hp

/-- Witness for C5 (spec scenario 5): `match_all: [«name: abc», «name: xyz»]`
on `[«name: abc», «name: xyz», «name: qqq»]` passes (every pattern is
found), while the same patterns on `[«name: abc»]` fail (`«name: xyz»` is
unsatisfied although `«name: abc»` is satisfied). -/
theorem match_all_iff_witness :
    (∃ r, pyMatchAll (fun _ _ => (false, "")) false
        [Val.dict [("name", Val.str "abc")], Val.dict [("name", Val.str "xyz")]]
        (Val.list [Val.dict [("name", Val.str "abc")], Val.dict [("name", Val.str "xyz")],
          Val.dict [("name", Val.str "qqq")]]) = .ok r ∧ r.1 = true) ∧
    (∃ r, pyMatchAll (fun _ _ => (false, "")) false
        [Val.dict [("name", Val.str "abc")], Val.dict [("name", Val.str "xyz")]]
        (Val.list [Val.dict [("name", Val.str "abc")]]) = .ok r ∧ r.1 = false) := by
  have hwf : ∀ p ∈ [Val.dict [("name", Val.str "abc")], Val.dict [("name", Val.str "xyz")]],
      wfPattern p := by
    intro p hp
    simp at hp
    rcases hp with rfl | rfl
    · intro pl hpl
      injection hpl with h
      subst h
      exact ⟨"name", Val.str "abc", [], rfl, rfl⟩
    · intro pl hpl
      injection hpl with h
      subst h
      exact ⟨"name", Val.str "xyz", [], rfl, rfl⟩
  constructor
  · obtain ⟨r, hr, hiff⟩ := match_all_iff (fun _ _ => (false, "")) false
      [Val.dict [("name", Val.str "abc")], Val.dict [("name", Val.str "xyz")]]
      [Val.dict [("name", Val.str "abc")], Val.dict [("name", Val.str "xyz")],
        Val.dict [("name", Val.str "qqq")]] hwf
    refine ⟨r, hr, hiff.mpr ?_⟩
    intro p hp
    simp at hp
    rcases hp with rfl | rfl
    · refine ⟨Val.dict [("name", Val.str "abc")], by simp, ?_⟩
      simp [pairSatB, dictMatchB, pyLookup, applyCase, pyEq]
    · refine ⟨Val.dict [("name", Val.str "xyz")], by simp, ?_⟩
      simp [pairSatB, dictMatchB, pyLookup, applyCase, pyEq]
  · obtain ⟨r, hr, hiff⟩ := match_all_iff (fun _ _ => (false, "")) false
      [Val.dict [("name", Val.str "abc")], Val.dict [("name", Val.str "xyz")]]
      [Val.dict [("name", Val.str "abc")]] hwf
    refine ⟨r, hr, ?_⟩
    cases hb : r.1 with
    | false => rfl
    | true =>
      exfalso
      obtain ⟨a, ha, hsat⟩ := hiff.mp hb (Val.dict [("name", Val.str "xyz")]) (by simp)
      simp at ha
      rw [ha] at hsat
      simp [pairSatB, dictMatchB, pyLookup, applyCase, pyEq] at hsat
theorem scalarLoop_spec (orch : Val → Val → Bool × String) (ic : Bool) (r : Val) :
    ∀ ps : List Val, (∀ p ∈ ps, wfPattern p) →
      scalarLoop orch ic r ps = .ok (ps.any (fun p => scalarSatB orch ic r p)) := by
  intro ps
  induction ps with
  | nil =>
    intro _
    rfl
  | cons p ps2 ih =>
    intro hwf
    cases p with
    | dict pl =>
      obtain ⟨k, v, rest, rfl, hsafe⟩ := hwf (Val.dict pl) (by simp) pl rfl
      rw [scalarLoop]
      rw [hsafe]
      simp only [except_ok_bind]
      by_cases hh : pyHasTypeB v = true
      · rw [if_pos hh]
        by_cases ho : (orch v r).1 = true
        · rw [if_pos ho, List.any_cons]
          have : scalarSatB orch ic r (Val.dict ((k, v) :: rest)) = true := by
            rw [scalarSatB, hh, ho]
            rfl
          rw [this]
          rfl
        · rw [if_neg ho, ih (fun q hq => hwf q (by simp [hq])), List.any_cons]
          have : scalarSatB orch ic r (Val.dict ((k, v) :: rest)) = false := by
            rw [scalarSatB, hh]
            simpa using ho
          rw [this]
          rfl
      · rw [if_neg hh, ih (fun q hq => hwf q (by simp [hq])), List.any_cons]
        have : scalarSatB orch ic r (Val.dict ((k, v) :: rest)) = false := by
          rw [scalarSatB]
          have h2 : pyHasTypeB v = false := by simpa using hh
          rw [h2]
          rfl
        rw [this]
        rfl
    | int n =>
      rw [scalarLoop]
      by_cases he : pyEq (applyCase ic (Val.int n)) (applyCase ic r) = true
      · rw [if_pos he, List.any_cons]
        have : scalarSatB orch ic r (Val.int n) = true := he
        rw [this]
        rfl
      · rw [if_neg he, ih (fun q hq => hwf q (by simp [hq])), List.any_cons]
        have : scalarSatB orch ic r (Val.int n) = false := by simpa using he
        rw [this]
        rfl
      all_goals simp
    | bool b =>
      rw [scalarLoop]
      by_cases he : pyEq (applyCase ic (Val.bool b)) (applyCase ic r) = true
      · rw [if_pos he, List.any_cons]
        have : scalarSatB orch ic r (Val.bool b) = true := he
        rw [this]
        rfl
      · rw [if_neg he, ih (fun q hq => hwf q (by simp [hq])), List.any_cons]
        have : scalarSatB orch ic r (Val.bool b) = false := by simpa using he
        rw [this]
        rfl
      all_goals simp
    | str s =>
      rw [scalarLoop]
      by_cases he : pyEq (applyCase ic (Val.str s)) (applyCase ic r) = true
      · rw [if_pos he, List.any_cons]
        have : scalarSatB orch ic r (Val.str s) = true := he
        rw [this]
        rfl
      · rw [if_neg he, ih (fun q hq => hwf q (by simp [hq])), List.any_cons]
        have : scalarSatB orch ic r (Val.str s) = false := by simpa using he
        rw [this]
        rfl
      all_goals simp
    | none =>
      rw [scalarLoop]
      by_cases he : pyEq (applyCase ic Val.none) (applyCase ic r) = true
      · rw [if_pos he, List.any_cons]
        have : scalarSatB orch ic r Val.none = true := he
        rw [this]
        rfl
      · rw [if_neg he, ih (fun q hq => hwf q (by simp [hq])), List.any_cons]
        have : scalarSatB orch ic r Val.none = false := by simpa using he
        rw [this]
        rfl
      all_goals simp
    | list l =>
      rw [scalarLoop]
      by_cases he : pyEq (applyCase ic (Val.list l)) (applyCase ic r) = true
      · rw [if_pos he, List.any_cons]
        have : scalarSatB orch ic r (Val.list l) = true := he
        rw [this]
        rfl
      · rw [if_neg he, ih (fun q hq => hwf q (by simp [hq])), List.any_cons]
        have : scalarSatB orch ic r (Val.list l) = false := by simpa using he
        rw [this]
        rfl
      all_goals simp

theorem numberMatchAny_fst (es : List Val) (v : Int) :
    (numberMatchAny es v).1 = es.any (fun e => numberMatchB e v) := by
  rw [numberMatchAny]
  by_cases h : es.any (fun e => numberMatchB e v) = true
  · rw [if_pos h, h]
  · rw [if_neg h]
    simpa using h

theorem dictMatchAny_fst (ic : Bool) (ps : List Val) (r : Val) :
    (dictMatchAny ic ps r).1 = ps.any (fun p => dictMatchB ic p r) := by
  rw [dictMatchAny]
  by_cases h : ps.any (fun p => dictMatchB ic p r) = true
  · rw [if_pos h, h]
  · rw [if_neg h]
    simpa using h

theorem matchAnyGo_spec (orch : Val → Val → Bool × String) (ic : Bool)
    (patterns : List Val) (failMsg : String) (hwf : ∀ p ∈ patterns, wfPattern p) :
    ∀ elems : List Val,
      matchAnyGo orch ic patterns failMsg elems =
        .ok (if elems.any (fun r => elemSatB orch ic patterns r)
          then (true, "Check Passed") else (false, failMsg)) := by
  intro elems
  induction elems with
  | nil => rfl
  | cons r rest ih =>
    rw [matchAnyGo]
    by_cases hnum : (match pyToInt r with
        | some n => (numberMatchAny patterns n).1
        | Option.none => false) = true
    · rw [if_pos hnum]
      have hsat : elemSatB orch ic patterns r = true := by
        rw [elemSatB, Bool.or_eq_true]
        left
        cases hv : pyToInt r with
        | none =>
          rw [hv] at hnum
          exact absurd hnum (by simp)
        | some n =>
          rw [hv] at hnum
          have h4 : (numberMatchAny patterns n).1 = true := hnum
          rw [numberMatchAny_fst] at h4
          exact h4
      rw [List.any_cons, hsat, if_pos (by rfl)]
    · rw [if_neg hnum]
      have hnum2 : ((pyToInt r).elim false
          (fun n => patterns.any (fun p => numberMatchB p n))) = false := by
        cases hv : pyToInt r with
        | none => rfl
        | some n =>
          rw [hv] at hnum
          have h4 : (numberMatchAny patterns n).1 = false := by simpa using hnum
          rw [numberMatchAny_fst] at h4
          exact h4
      by_cases hd : isDictB r = true
      · rw [if_pos hd]
        by_cases hdm : (dictMatchAny ic patterns r).1 = true
        · rw [if_pos hdm]
          have hsat : elemSatB orch ic patterns r = true := by
            rw [elemSatB, Bool.or_eq_true]
            right
            rw [if_pos hd, ← dictMatchAny_fst ic patterns r]
            exact hdm
          rw [List.any_cons, hsat, if_pos (by rfl)]
        · rw [if_neg hdm, ih]
          have hsat : elemSatB orch ic patterns r = false := by
            rw [elemSatB, hnum2, Bool.false_or]
            rw [if_pos hd, ← dictMatchAny_fst ic patterns r]
            simpa using hdm
          rw [List.any_cons, hsat]
          rfl
      · rw [if_neg hd]
        rw [scalarLoop_spec orch ic r patterns hwf]
        simp only [except_ok_bind]
        by_cases hs : (patterns.any fun p => scalarSatB orch ic r p) = true
        · rw [if_pos hs]
          have hsat : elemSatB orch ic patterns r = true := by
            rw [elemSatB, Bool.or_eq_true]
            right
            rw [if_neg hd]
            exact hs
          rw [List.any_cons, hsat, if_pos (by rfl)]
        · rw [if_neg hs, ih]
          have hsat : elemSatB orch ic patterns r = false := by
            rw [elemSatB, hnum2, Bool.false_or]
            rw [if_neg hd]
            simpa using hs
          rw [List.any_cons, hsat]
          rfl

theorem elemSatB_iff (orch : Val → Val → Bool × String) (ic : Bool)
    (patterns : List Val) (r : Val) :
    elemSatB orch ic patterns r = true ↔
      ∃ p ∈ patterns, anyPairSatB orch ic r p = true := by
  rw [elemSatB, Bool.or_eq_true]
  constructor
  · intro h
    rcases h with h | h
    · cases hv : pyToInt r with
      | none =>
        rw [hv] at h
        exact absurd h (by simp [Option.elim])
      | some n =>
        rw [hv] at h
        have h2 : patterns.any (fun p => numberMatchB p n) = true := h
        rw [List.any_eq_true] at h2
        obtain ⟨p, hp, hnp⟩ := h2
        refine ⟨p, hp, ?_⟩
        rw [anyPairSatB, Bool.or_eq_true]
        left
        rw [hv]
        exact hnp
    · by_cases hd : isDictB r = true
      · rw [if_pos hd] at h
        rw [List.any_eq_true] at h
        obtain ⟨p, hp, hdp⟩ := h
        refine ⟨p, hp, ?_⟩
        rw [anyPairSatB, Bool.or_eq_true]
        right
        rw [if_pos hd]
        exact hdp
      · rw [if_neg hd] at h
        rw [List.any_eq_true] at h
        obtain ⟨p, hp, hsp⟩ := h
        refine ⟨p, hp, ?_⟩
        rw [anyPairSatB, Bool.or_eq_true]
        right
        rw [if_neg hd]
        exact hsp
  · intro h
    obtain ⟨p, hp, hps⟩ := h
    rw [anyPairSatB, Bool.or_eq_true] at hps
    rcases hps with hps | hps
    · left
      cases hv : pyToInt r with
      | none =>
        rw [hv] at hps
        exact absurd hps (by simp [Option.elim])
      | some n =>
        rw [hv] at hps
        have h2 : patterns.any (fun q => numberMatchB q n) = true := by
          rw [List.any_eq_true]
          exact ⟨p, hp, hps⟩
        exact h2
    · right
      by_cases hd : isDictB r = true
      · rw [if_pos hd] at hps
        rw [if_pos hd]
        rw [List.any_eq_true]
        exact ⟨p, hp, hps⟩
      · rw [if_neg hd] at hps
        rw [if_neg hd]
        rw [List.any_eq_true]
        exact ⟨p, hp, hps⟩

/-- Claim C6: `match_any` (on DSL-shaped patterns, for any orchestrator
`orch`) passes iff at least one actual element satisfies at least one
expected pattern, and the verdict is unchanged under any permutation of
the actual elements and of the expected patterns. -/
theorem match_any_iff_perm (orch : Val → Val → Bool × String) (ic : Bool)
    (patterns A : List Val) (hwf : ∀ p ∈ patterns, wfPattern p) :
    ∃ b m, pyMatchAny orch ic patterns (Val.list A) = .ok (b, m) ∧
      (b = true ↔ ∃ r ∈ A, ∃ p ∈ patterns, anyPairSatB orch ic r p = true) ∧
      (∀ A2 P2 : List Val, A.Perm A2 → patterns.Perm P2 →
        ∃ m2, pyMatchAny orch ic P2 (Val.list A2) = .ok (b, m2)) := by
  have hbase : ∀ (P2 A2 : List Val), (∀ p ∈ P2, wfPattern p) →
      pyMatchAny orch ic P2 (Val.list A2) =
        .ok (if A2.any (fun r => elemSatB orch ic P2 r)
          then (true, "Check Passed")
          else (false, "list::match_any failure. Got=" ++ pyStr (Val.list A2))) := by
    intro P2 A2 hwf2
    rw [pyMatchAny]
    simp only [pyIter, except_ok_bind]
    rw [matchAnyGo_spec orch ic P2 _ hwf2 A2]
  have hiffgen : ∀ (P2 A2 : List Val),
      (A2.any fun r => elemSatB orch ic P2 r) = true ↔
        ∃ r ∈ A2, ∃ p ∈ P2, anyPairSatB orch ic r p = true := by
    intro P2 A2
    rw [List.any_eq_true]
    constructor
    · intro h
      obtain ⟨r, hr, hs⟩ := h
      exact ⟨r, hr, (elemSatB_iff orch ic P2 r).mp hs⟩
    · intro h
      obtain ⟨r, hr, hs⟩ := h
      exact ⟨r, hr, (elemSatB_iff orch ic P2 r).mpr hs⟩
  refine ⟨A.any (fun r => elemSatB orch ic patterns r),
    (if A.any (fun r => elemSatB orch ic patterns r) then "Check Passed"
     else "list::match_any failure. Got=" ++ pyStr (Val.list A)), ?_, ?_, ?_⟩
  · rw [hbase patterns A hwf]
    by_cases h : (A.any fun r => elemSatB orch ic patterns r) = true
    · rw [h]
      simp
    · have h2 : (A.any fun r => elemSatB orch ic patterns r) = false := by simpa using h
      rw [h2]
      simp
  · exact hiffgen patterns A
  · intro A2 P2 hpa hpp
    have hwf2 : ∀ p ∈ P2, wfPattern p := fun p hp => hwf p (hpp.mem_iff.mpr hp)
    have hsame : (A2.any fun r => elemSatB orch ic P2 r) =
        (A.any fun r => elemSatB orch ic patterns r) := by
      by_cases h : (A.any fun r => elemSatB orch ic patterns r) = true
      · rw [h]
        rw [hiffgen P2 A2]
        obtain ⟨r, hr, p, hp, hs⟩ := (hiffgen patterns A).mp h
        exact ⟨r, hpa.mem_iff.mp hr, p, hpp.mem_iff.mp hp, hs⟩
      · have h2 : (A.any fun r => elemSatB orch ic patterns r) = false := by simpa using h
        rw [h2]
        by_cases hc : (A2.any fun r => elemSatB orch ic P2 r) = true
        · exfalso
          apply h
          rw [hiffgen patterns A]
          obtain ⟨r, hr, p, hp, hs⟩ := (hiffgen P2 A2).mp hc
          exact ⟨r, hpa.mem_iff.mpr hr, p, hpp.mem_iff.mpr hp, hs⟩
        · simpa using hc
    rw [hbase P2 A2 hwf2, hsame]
    by_cases h : (A.any fun r => elemSatB orch ic patterns r) = true
    · rw [h]
      exact ⟨"Check Passed", by simp⟩
    · have h2 : (A.any fun r => elemSatB orch ic patterns r) = false := by simpa using h
      rw [h2]
      exact ⟨"list::match_any failure. Got=" ++ pyStr (Val.list A2), by simp⟩

/-- Witness for C6 (docstring pattern): patterns
`[«name: abc, running: False», "x"]` on actual
`["y", «name: abc, running: False»]` pass — the mapping element satisfies
the attribute-set pattern — and the verdict survives swapping both
lists. -/
theorem match_any_iff_perm_witness :
    ∃ m, pyMatchAny (fun _ _ => (false, "")) false
        [Val.dict [("name", Val.str "abc"), ("running", Val.bool false)], Val.str "x"]
        (Val.list [Val.str "y",
          Val.dict [("name", Val.str "abc"), ("running", Val.bool false)]]) =
        .ok (true, m) ∧
      ∃ m2, pyMatchAny (fun _ _ => (false, "")) false
        [Val.str "x", Val.dict [("name", Val.str "abc"), ("running", Val.bool false)]]
        (Val.list [Val.dict [("name", Val.str "abc"), ("running", Val.bool false)],
          Val.str "y"]) = .ok (true, m2) := by
  have hwf : ∀ p ∈ [Val.dict [("name", Val.str "abc"), ("running", Val.bool false)],
      Val.str "x"], wfPattern p := by
    intro p hp
    simp at hp
    rcases hp with rfl | rfl
    · intro pl hpl
      injection hpl with h
      subst h
      exact ⟨"name", Val.str "abc", [("running", Val.bool false)], rfl, rfl⟩
    · intro pl hpl
      cases hpl
  obtain ⟨b, m, hb, hiff, hperm⟩ := match_any_iff_perm (fun _ _ => (false, "")) false
    [Val.dict [("name", Val.str "abc"), ("running", Val.bool false)], Val.str "x"]
    [Val.str "y", Val.dict [("name", Val.str "abc"), ("running", Val.bool false)]] hwf
  have hbt : b = true := by
    apply hiff.mpr
    refine ⟨Val.dict [("name", Val.str "abc"), ("running", Val.bool false)], by simp,
      Val.dict [("name", Val.str "abc"), ("running", Val.bool false)], by simp, ?_⟩
    simp [anyPairSatB, pyToInt, isDictB, dictMatchB, pyLookup, applyCase, pyEq, Option.elim]
  subst hbt
  obtain ⟨m2, hm2⟩ := hperm
    [Val.dict [("name", Val.str "abc"), ("running", Val.bool false)], Val.str "y"]
    [Val.str "x", Val.dict [("name", Val.str "abc"), ("running", Val.bool false)]]
    (List.Perm.swap (Val.dict [("name", Val.str "abc"), ("running", Val.bool false)])
      (Val.str "y") [])
    (List.Perm.swap (Val.str "x")
      (Val.dict [("name", Val.str "abc"), ("running", Val.bool false)]) [])
  exact ⟨m, hb, m2, hm2⟩
theorem filterLoop_eq_filter (f : Val) :
    ∀ l : List Val, filterLoop f l = l.filter (fun e => dictMatchB false f e) := by
  intro l
  induction l with
  | nil => rfl
  | cons r rest ih =>
    rw [filterLoop, List.filter_cons]
    by_cases h : dictMatchB false f r = true
    · rw [if_pos h, if_pos h, ih]
    · rw [if_neg h, if_neg h, ih]

/-- Claim C4: `filter_compare` returns exactly what evaluating its nested
`compare` rule on the filtered subsequence returns — the subsequence of
actual elements (in original order) accepted by the mapping comparator's
`match` against the filter pattern. -/
theorem filter_compare_refines (orch : Val → Val → Bool × String) (f : Val)
    (c : ListRule) (A : List Val) :
    evalListRule orch (.filterCompareRule f c) (Val.list A) =
      evalListRule orch c (Val.list (A.filter (fun e => dictMatchB false f e))) := by
  rw [evalListRule]
  simp only [pyIter, except_ok_bind]
  rw [filterLoop_eq_filter]

example : pyEq (Val.int 1) (Val.bool true) = true := by
  simp [pyEq, pyBoolInt]

example : pyEq (Val.dict [("a", Val.int 1), ("b", Val.int 2)])
    (Val.dict [("b", Val.int 2), ("a", Val.int 1)]) = true := by
  simp [pyEq, pyEqEntries, pyLookup]

example : pyStr (Val.list [Val.int 1, Val.str "a"]) = "[1, \x27a\x27]" := by
  simp [pyStr, pyRepr, pyReprList]
  rfl
